import Mathlib

/-!
# metacfg: binding a dynamic key/value tree onto a typed structure

A shallow embedding of the package `metacfg` (files `config.go`, `option.go`,
`parser.go`, `tag.go`) and theorems about it.

* Go strings are `String`; the string algorithms run on the list of characters
  (`String.data`).  Offsets are character offsets; the markers the code looks for
  (`$`, braces, `:`, `,`, `|`, `;`, `=`) are ASCII, so on valid UTF-8 the byte
  offsets of the source and the character offsets here select the same pieces.
* A Go map is an association list: `range` enumerates it in list order (an arbitrary
  order in Go), `m[k]` is `List.lookup`, `m[k] = v` is `mapSet`.
* `reflect` is modelled by a type description `Ty` and a storage tree `Val`;
  a function that mutates a field returns the field's new content together with the
  error, if any, so the state left behind by a failed call is visible.
* `resolveEnvVarsInString` is a loop that need not finish; it takes a number of
  iterations it may run (`fuel`) and yields `none` when they do not suffice.
* Functions of other packages that are not simple string functions (`spf13/cast`,
  `strconv.ParseFloat`, `strings.ToLower`, the `float32` conversion) are the fields
  of a parameter `Lib`.
-/

namespace Metacfg

/-! ## Strings (Go packages `strings` and `strconv`) -/

/-- Go `strings.Index(s, sub)` on character lists: the offset of the first occurrence
of `sub` in `s`; `none` stands for the result `-1`. -/
def Index : List Char → List Char → Option Nat
  | [], sub => if sub.isEmpty then some 0 else none
  | c :: t, sub => if sub.isPrefixOf (c :: t) then some 0 else (Index t sub).map (· + 1)

/-- Go `strings.Split(s, sep)` on character lists, for a separator of one character
(every call of the package passes `","`, `"|"`, `";"` or `":"`). -/
def SplitChars : List Char → Char → List (List Char)
  | [], _ => [[]]
  | c :: cs, sep =>
    if c = sep then [] :: SplitChars cs sep
    else match SplitChars cs sep with
      | [] => [[c]]
      | p :: ps => (c :: p) :: ps

/-- Go `strings.Split(s, sep)` for a separator of one character. -/
def Split (s : String) (sep : Char) : List String :=
  (SplitChars s.data sep).map String.mk

/-- Go `unicode.IsSpace`. -/
def IsSpace (c : Char) : Bool :=
  let n := c.toNat
  (9 ≤ n && n ≤ 13) || n = 32 || n = 0x85 || n = 0xA0 || n = 0x1680 ||
  (0x2000 ≤ n && n ≤ 0x200a) || n = 0x2028 || n = 0x2029 || n = 0x202f ||
  n = 0x205f || n = 0x3000

/-- Go `strings.TrimSpace`. -/
def TrimSpace (s : String) : String :=
  String.mk ((s.data.dropWhile IsSpace).reverse.dropWhile IsSpace).reverse

/-- Go `strings.HasPrefix`. -/
def HasPrefix (s p : String) : Bool :=
  p.data.isPrefixOf s.data

/-- Go `strings.HasSuffix`. -/
def HasSuffix (s p : String) : Bool :=
  p.data.reverse.isPrefixOf s.data.reverse

/-- Go `strings.TrimPrefix`. -/
def TrimPrefix (s p : String) : String :=
  if HasPrefix s p then String.mk (s.data.drop p.data.length) else s

/-- Go `strings.TrimSuffix`. -/
def TrimSuffix (s p : String) : String :=
  if HasSuffix s p then String.mk (s.data.take (s.data.length - p.data.length)) else s

/-- The slice expression `s[n:]`. -/
def sliceFrom (s : String) (n : Nat) : String :=
  String.mk (s.data.drop n)

/-- Decimal digits read left to right into an accumulator; `none` at the first
character that is not a digit. -/
def parseDigits : List Char → Nat → Option Nat
  | [], acc => some acc
  | c :: cs, acc =>
    if 48 ≤ c.toNat ∧ c.toNat ≤ 57 then parseDigits cs (acc * 10 + (c.toNat - 48)) else none

/-- An unsigned decimal numeral: at least one digit, digits only. -/
def parseUnsigned : List Char → Option Nat
  | [] => none
  | c :: cs => parseDigits (c :: cs) 0

/-- Go `strconv.ParseInt(s, 10, 64)`; `none` stands for a non-nil error (malformed
text or a value outside the 64-bit signed range). -/
def ParseInt (s : String) : Option Int :=
  let signed : Option Int :=
    match s.data with
    | '+' :: ds => (parseUnsigned ds).map Int.ofNat
    | '-' :: ds => (parseUnsigned ds).map (fun n => - Int.ofNat n)
    | ds => (parseUnsigned ds).map Int.ofNat
  match signed with
  | some n => if - (2 : Int) ^ 63 ≤ n ∧ n ≤ 2 ^ 63 - 1 then some n else none
  | none => none

/-- Go `strconv.ParseBool`; `none` stands for a non-nil error. -/
def ParseBool (s : String) : Option Bool :=
  if s = "1" ∨ s = "t" ∨ s = "T" ∨ s = "TRUE" ∨ s = "true" ∨ s = "True" then some true
  else if s = "0" ∨ s = "f" ∨ s = "F" ∨ s = "FALSE" ∨ s = "false" ∨ s = "False" then some false
  else none

/-! ## Data model -/

/-- A `float64`, kept as its bit pattern; no arithmetic on it is modelled. -/
structure Float64 where
  bits : Nat
  deriving DecidableEq, Repr

/-- The dynamic value (`any`) the format decoders and `parseDefaultValue` produce:
`nil`, `bool`, `int`/`int64`, `float64`, `string`, `[]any`, `[]string` and
`map[string]any`. -/
inductive Dyn where
  | null
  | bool (b : Bool)
  | int (n : Int)
  | float (f : Float64)
  | str (s : String)
  | seq (xs : List Dyn)
  | strs (xs : List String)
  | map (m : List (String × Dyn))
  deriving Repr

/-- The test `val == nil` on a dynamic value. -/
def Dyn.isNil : Dyn → Bool
  | .null => true
  | _ => false

/-- The assignment `m[k] = v` on a map: an existing entry of key `k` gets the new
value, otherwise the entry is added. -/
def mapSet {α : Type} : List (String × α) → String → α → List (String × α)
  | [], k, v => [(k, v)]
  | (k', v') :: rest, k, v => if k' = k then (k', v) :: rest else (k', v') :: mapSet rest k v

/-- Struct `tagOptions` of `tag.go`. -/
structure tagOptions where
  hasDefault : Bool := false
  defaultValue : Dyn := Dyn.null
  hasRange : Bool := false
  rangeMin : Int := 0
  rangeMax : Int := 0
  hasOptions : Bool := false
  options : List String := []
  optional : Bool := false

/-- Struct `Options` of `option.go`. -/
structure Options where
  IgnoreCase : Bool
  TagName : String
  UseDefaults : Bool
  UseEnv : Bool

/-- Struct `Config` of `config.go`. -/
structure Config where
  options : Options
  data : List (String × Dyn)

/-- The process environment: a variable is unset (`none`) or set to a string. -/
abbrev Env := String → Option String

/-- Go `os.Getenv`: the value of the variable, the empty string when it is unset. -/
def Getenv (env : Env) (key : String) : String :=
  (env key).getD ""

/-- The errors of the package, by the statement that builds them. -/
inductive Err where
  /-- "target must be a non-nil pointer to struct" -/
  | notPointer
  /-- "target must be a pointer to struct" -/
  | notStruct
  /-- "required field is missing" -/
  | requiredMissing
  /-- "cannot set nil to non-pointer field" -/
  | nilToNonPointer
  /-- The error a function of `cast` returns: the target asked for and the value. -/
  | cast (target : String) (val : Dyn)
  /-- "value must be between %d and %d" -/
  | range (min max : Int)
  /-- "value must be one of: %s", the options joined by ", " -/
  | options (options : List String)
  /-- "cannot convert %T to []string" and "cannot convert %T to struct"; the message
  shows the dynamic type of `val`. -/
  | cannotConvert (val : Dyn) (target : String)
  /-- "unsupported field type: %s" -/
  | unsupported (kind : String)
  /-- The wrapper `fmt.Errorf("field %q: %w", name, cause)`. -/
  | field (name : String) (cause : Err)
  /-- The wrapper `fmt.Errorf("failed to parse config: %w", cause)` of `Load`. -/
  | parseConfig (cause : Err)
  deriving Repr

/-- Functions of other packages the binder calls.  A function of `cast` yields `none`
where the Go function returns a non-nil error. -/
structure Lib where
  /-- Go `strings.ToLower`. -/
  ToLower : String → String
  /-- Go `strconv.ParseFloat(s, 64)`; `none` stands for a non-nil error. -/
  ParseFloat : String → Option Float64
  /-- The conversion `float32(f)` done by `reflect.Value.SetFloat` on a `float32`. -/
  float32 : Float64 → Float64
  /-- Function `cast.ToDurationE`, in nanoseconds. -/
  ToDurationE : Dyn → Option Int
  /-- Function `cast.ToStringE`. -/
  ToStringE : Dyn → Option String
  /-- Function `cast.ToInt64E`. -/
  ToInt64E : Dyn → Option Int
  /-- Function `cast.ToFloat64E`. -/
  ToFloat64E : Dyn → Option Float64
  /-- Function `cast.ToBoolE`. -/
  ToBoolE : Dyn → Option Bool
  /-- Function `cast.ToSliceE`. -/
  ToSliceE : Dyn → Option (List Dyn)
  /-- Function `cast.ToStringMapE`. -/
  ToStringMapE : Dyn → Option (List (String × Dyn))

/-! ## tag.go -/

/-- Function `parseDefaultValue` of `tag.go`. -/
def parseDefaultValue (K : Lib) (val : String) : Dyn :=
  if HasPrefix val "\x7b" && HasSuffix val "\x7d" then
    Dyn.strs (Split (TrimPrefix (TrimSuffix val "\x7d") "\x7b") ';')
  else match ParseInt val with
    | some i => Dyn.int i
    | none =>
      match K.ParseFloat val with
      | some f => Dyn.float f
      | none =>
        match ParseBool val with
        | some b => Dyn.bool b
        | none => Dyn.str val

/-- Function `parseRange` of `tag.go`; `none` stands for a non-nil error. -/
def parseRange (val : String) : Option (Int × Int) :=
  if !HasPrefix val "[" || !HasSuffix val "]" then none
  else
    match Split (TrimPrefix (TrimSuffix val "]") "[") ':' with
    | [lo, hi] =>
      match ParseInt lo with
      | none => none
      | some min =>
        match ParseInt hi with
        | none => none
        | some max => if min > max then none else some (min, max)
    | _ => none

/-- The body of the loop of `parseTag`: one segment after the name. -/
def parseTagPart (K : Lib) (opts : tagOptions) (part0 : String) : tagOptions :=
  let part := TrimSpace part0
  if part = "" then opts
  else if HasPrefix part "default=" then
    { opts with hasDefault := true, defaultValue := parseDefaultValue K (sliceFrom part 8) }
  else if HasPrefix part "range=" then
    match parseRange (sliceFrom part 6) with
    | some (min, max) => { opts with hasRange := true, rangeMin := min, rangeMax := max }
    | none => opts
  else if HasPrefix part "options=" then
    { opts with hasOptions := true, options := Split (sliceFrom part 8) '|' }
  else if part = "optional" then
    { opts with optional := true }
  else opts

/-- Function `parseTag` of `tag.go`. -/
def parseTag (K : Lib) (tag : String) : String × tagOptions :=
  if tag = "" then ("", {})
  else
    match Split tag ',' with
    | [] => ("", {})
    | name :: parts => (name, parts.foldl (parseTagPart K) {})

/-- Function `validateRange` of `tag.go`; `none` is the `nil` error. -/
def validateRange (val : Int) (opts : tagOptions) : Option Err :=
  if !opts.hasRange then none
  else if val < opts.rangeMin ∨ val > opts.rangeMax then
    some (Err.range opts.rangeMin opts.rangeMax)
  else none

/-- Function `validateOptions` of `tag.go`; `none` is the `nil` error. -/
def validateOptions (val : String) (opts : tagOptions) : Option Err :=
  if !opts.hasOptions then none
  else if opts.options.any (fun opt => val == opt) then none
  else some (Err.options opts.options)

/-- One pass through the body of the loop of `resolveEnvVarsInString`: `Sum.inl r`
when the loop breaks with result `r`, `Sum.inr r` when it goes round again with
`result = r`. -/
def resolveStep (env : Env) (result : List Char) : List Char ⊕ List Char :=
  match Index result ['$', '\x7b'] with
  | none => Sum.inl result
  | some start =>
    match Index (result.drop start) ['\x7d'] with
    | none => Sum.inl result
    | some e =>
      let stop := e + start
      let token := (result.take stop).drop (start + 2)
      let envVar := match Index token [':'] with
        | some idx => token.take idx
        | none => token
      let defaultVal := match Index token [':'] with
        | some idx => token.drop (idx + 1)
        | none => []
      let val := if Getenv env (String.mk envVar) = "" then defaultVal
        else (Getenv env (String.mk envVar)).data
      Sum.inr (result.take start ++ val ++ result.drop (stop + 1))

/-- The loop of `resolveEnvVarsInString`, run for at most `fuel` passes. -/
def resolveLoop (env : Env) : Nat → List Char → Option (List Char)
  | 0, _ => none
  | fuel + 1, result =>
    match resolveStep env result with
    | Sum.inl r => some r
    | Sum.inr r => resolveLoop env fuel r

/-- Function `resolveEnvVarsInString` of `tag.go`: `some r` when the loop ends within
`fuel` passes and returns `r`, `none` when it is still running after them. -/
def resolveEnvVarsInString (env : Env) (fuel : Nat) (s : String) : Option String :=
  (resolveLoop env fuel s.data).map String.mk

mutual
/-- Method `Config.resolveEnvVars` of `tag.go`; `none` when a string of the value
keeps `resolveEnvVarsInString` running beyond `fuel` passes. -/
def resolveEnvVars (env : Env) (fuel : Nat) (c : Config) : Dyn → Option Dyn
  | Dyn.str v =>
    if !c.options.UseEnv then some (Dyn.str v)
    else (resolveEnvVarsInString env fuel v).map Dyn.str
  | Dyn.seq v =>
    if !c.options.UseEnv then some (Dyn.seq v)
    else (resolveEnvVarsSeq env fuel c v).map Dyn.seq
  | Dyn.map v =>
    if !c.options.UseEnv then some (Dyn.map v)
    else (resolveEnvVarsMap env fuel c v).map Dyn.map
  | val => some val
/-- The loop of `resolveEnvVars` over the items of a `[]any`. -/
def resolveEnvVarsSeq (env : Env) (fuel : Nat) (c : Config) : List Dyn → Option (List Dyn)
  | [] => some []
  | item :: rest =>
    match resolveEnvVars env fuel c item with
    | none => none
    | some r => (resolveEnvVarsSeq env fuel c rest).map (fun rs => r :: rs)
/-- The loop of `resolveEnvVars` over the entries of a `map[string]any`. -/
def resolveEnvVarsMap (env : Env) (fuel : Nat) (c : Config) :
    List (String × Dyn) → Option (List (String × Dyn))
  | [] => some []
  | (k, item) :: rest =>
    match resolveEnvVars env fuel c item with
    | none => none
    | some r => (resolveEnvVarsMap env fuel c rest).map (fun rs => (k, r) :: rs)
end

/-! ## Target structures (package `reflect`) -/

mutual
/-- The static type of a field, as the binder inspects it through `reflect`.
`duration` is `time.Duration`; `int bits` is `int8`, `int16`, `int32`, `int64` and
`int` (64 bits, or 32 on a 32-bit platform); `float bits` is `float32` or `float64`;
`map elem` is `map[string]elem`; `other kind` is any kind `setField` has no case for
(unsigned integers, arrays, channels, functions, interfaces, ...).  Types are finite
trees: a structure type that contains itself through a pointer is not described. -/
inductive Ty where
  | duration
  | string
  | int (bits : Nat)
  | float (bits : Nat)
  | bool
  | slice (elem : Ty)
  | map (elem : Ty)
  | ptr (elem : Ty)
  | struct (fields : List StructField)
  | other (kind : String)
/-- One field of a structure type (`reflect.StructField`): its name, its tag as the
list of `key:"value"` pairs, whether it is embedded, whether `CanSet` holds for it (it is
exported), and its type. -/
inductive StructField where
  | mk (Name : String) (Tag : List (String × String)) (Anonymous : Bool) (CanSet : Bool)
      (ty : Ty)
end

/-- The content of a field.  A `time.Duration` is an `int` of nanoseconds; a nil
slice, map or pointer is `none`; a structure is the list of its fields' contents in
declaration order; `other` is storage of a type the binder has no case for. -/
inductive Val where
  | str (s : String)
  | int (n : Int)
  | float (f : Float64)
  | bool (b : Bool)
  | slice (xs : Option (List Val))
  | map (m : Option (List (String × Val)))
  | ptr (p : Option Val)
  | struct (fs : List Val)
  | other
  deriving Repr

/-- Name of a field. -/
def StructField.Name : StructField → String
  | StructField.mk n _ _ _ _ => n

/-- Type of a field. -/
def StructField.ty : StructField → Ty
  | StructField.mk _ _ _ _ t => t

/-- Go `reflect.StructTag.Get`: the value of the key, the empty string when the tag
has no such key. -/
def tagGet (tag : List (String × String)) (key : String) : String :=
  (tag.lookup key).getD ""

mutual
/-- The zero value of a type (`reflect.Zero`, and the content of `reflect.New`). -/
def zero : Ty → Val
  | Ty.duration => Val.int 0
  | Ty.string => Val.str ""
  | Ty.int _ => Val.int 0
  | Ty.float _ => Val.float ⟨0⟩
  | Ty.bool => Val.bool false
  | Ty.slice _ => Val.slice none
  | Ty.map _ => Val.map none
  | Ty.ptr _ => Val.ptr none
  | Ty.struct fields => Val.struct (zeroFields fields)
  | Ty.other _ => Val.other
/-- The zero values of the fields of a structure type. -/
def zeroFields : List StructField → List Val
  | [] => []
  | StructField.mk _ _ _ _ t :: rest => zero t :: zeroFields rest
end

/-- The test `Kind() == reflect.String`. -/
def Ty.isString : Ty → Bool
  | Ty.string => true
  | _ => false

/-- The value `reflect.Value.SetInt(n)` stores in an integer of `bits` bits: `n`
reduced to the two's-complement range of that width. -/
def wrapInt (bits : Nat) (n : Int) : Int :=
  (n + 2 ^ (bits - 1)) % 2 ^ bits - 2 ^ (bits - 1)

/-- The value `reflect.Value.SetFloat(f)` stores in a float of `bits` bits. -/
def storeFloat (K : Lib) (bits : Nat) (f : Float64) : Float64 :=
  if bits = 32 then K.float32 f else f

/-- What a call that mutates storage of type `α` leaves: `none` when the call is
still running after the passes it was given (see `resolveEnvVarsInString`), else the
content of the storage when the call returns, and the error it returns, if any. -/
abbrev Res (α : Type) := Option (α × Option Err)

/-- The effect `f` on the storage, for a call that returned. -/
def Res.mapVal {α β : Type} (f : α → β) : Res α → Res β
  | none => none
  | some (v, e) => some (f v, e)

/-! ## parser.go -/

/-- Method `Config.getValueFromMap` of `parser.go`; `none` is the result `(nil, false)`,
`some v` the result `(v, true)`.  A nil map and an empty map are both `[]`. -/
def getValueFromMap (K : Lib) (c : Config) (m : List (String × Dyn)) (key : String) :
    Option Dyn :=
  m.lookup (if c.options.IgnoreCase then K.ToLower key else key)

/-- Method `Config.getNestedMap` of `parser.go`; `none` is the result `(nil, false)`. -/
def getNestedMap (K : Lib) (c : Config) (curMap : List (String × Dyn)) (key : String) :
    Option (List (String × Dyn)) :=
  match curMap.lookup (if c.options.IgnoreCase then K.ToLower key else key) with
  | some (Dyn.map m) => some m
  | _ => none

/-- Method `Config.parseField` of `parser.go`.  The field is given by its content `cur`
and by `set`, the effect of `c.setField(field, ·, ·)` on it; `finish` is the part of the
method from the comment "Handle environment variables" on. -/
def parseField (K : Lib) (env : Env) (fuel : Nat) (c : Config)
    (set : Dyn → tagOptions → Res Val) (cur : Val) (key : String) (opts : tagOptions)
    (curMap : List (String × Dyn)) : Res Val :=
  let finish : Dyn → Res Val := fun val =>
    if c.options.UseEnv then
      match resolveEnvVars env fuel c val with
      | none => none
      | some r => set r opts
    else set val opts
  match getValueFromMap K c curMap key with
  | some val => finish val
  | none =>
    if opts.optional then some (cur, none)
    else if !opts.hasDefault then some (cur, some Err.requiredMissing)
    else finish opts.defaultValue

/-- The loop of `setField` over the items of a slice that `reflect.MakeSlice` has
filled with zero values `z`: `set` is `setField` on one element. -/
def setElems (set : Dyn → Res Val) (z : Val) : List Dyn → Res (List Val)
  | [] => some ([], none)
  | v :: rest =>
    match set v with
    | none => none
    | some (x, some e) => some (x :: rest.map (fun _ => z), some e)
    | some (x, none) => Res.mapVal (fun xs => x :: xs) (setElems set z rest)

/-- The loop of `setField` over the entries of the source map: `set` is `setField` on
a fresh value of the element type, `acc` the content of the target map so far. -/
def setEntries (set : Dyn → Res Val) :
    List (String × Dyn) → List (String × Val) → Res (List (String × Val))
  | [], acc => some (acc, none)
  | (k, v) :: rest, acc =>
    match set v with
    | none => none
    | some (_, some e) => some (acc, some e)
    | some (x, none) => setEntries set rest (mapSet acc k x)

/-- The case `[]interface{}` of the string-slice branch of `setField`: every item
through `cast.ToStringE`; `none` at the first item that fails. -/
def toStrings (K : Lib) : List Dyn → Option (List String)
  | [] => some []
  | item :: rest =>
    match K.ToStringE item with
    | none => none
    | some s => (toStrings K rest).map (fun ss => s :: ss)

/-- The first item of a `[]interface{}` that `cast.ToStringE` rejects. -/
def firstNotString (K : Lib) : List Dyn → Dyn
  | [] => Dyn.null
  | item :: rest => if (K.ToStringE item).isNone then item else firstNotString K rest

/-- The fields' contents of a structure value. -/
def structVals : Val → List Val
  | Val.struct vs => vs
  | _ => []

/-- The fields' contents of the structure a pointer holds; a nil pointer is
given a new structure, whose fields are zero. -/
def ptrStructVals : Val → List Val
  | Val.ptr (some (Val.struct vs)) => vs
  | _ => []

/-- The contents of the fields of a structure type as `parseStruct` reads them from
`vals`: a content that `vals` lacks is the zero value of the field's type. -/
def fieldVals : List StructField → List Val → List Val
  | [], _ => []
  | f :: fs, vals => vals.headD (zero f.ty) :: fieldVals fs vals.tail

/-- The content a pointer holds; a nil pointer is given a new zero value `z`. -/
def ptrElem (z : Val) : Val → Val
  | Val.ptr (some v) => v
  | _ => z

/-- The test `Kind() == reflect.Ptr`. -/
def Ty.isPtr : Ty → Bool
  | Ty.ptr _ => true
  | _ => false

/-- The condition of `parseStruct` for the structure branch: the field's kind is
`Struct`, or it is `Ptr` and the pointee's kind is `Struct`. -/
def Ty.isStructOrPtrToStruct : Ty → Bool
  | Ty.struct _ => true
  | Ty.ptr (Ty.struct _) => true
  | _ => false

mutual
/-- Method `Config.setField` of `parser.go`, on a field of type `ty` and content
`cur`. -/
def setField (K : Lib) (env : Env) (fuel : Nat) (c : Config) (ty : Ty) (cur : Val) (val : Dyn)
    (opts : tagOptions) : Res Val :=
  if val.isNil then
    if ty.isPtr then some (Val.ptr none, none) else some (cur, some Err.nilToNonPointer)
  else
    match ty with
    | Ty.duration =>
      match K.ToDurationE val with
      | none => some (cur, some (Err.cast "time.Duration" val))
      | some dur => some (Val.int dur, none)
    | Ty.string =>
      match K.ToStringE val with
      | none => some (cur, some (Err.cast "string" val))
      | some str =>
        match validateOptions str opts with
        | some e => some (cur, some e)
        | none => some (Val.str str, none)
    | Ty.int bits =>
      match K.ToInt64E val with
      | none => some (cur, some (Err.cast "int64" val))
      | some n =>
        match validateRange n opts with
        | some e => some (cur, some e)
        | none => some (Val.int (wrapInt bits n), none)
    | Ty.float bits =>
      match K.ToFloat64E val with
      | none => some (cur, some (Err.cast "float64" val))
      | some f => some (Val.float (storeFloat K bits f), none)
    | Ty.bool =>
      match K.ToBoolE val with
      | none => some (cur, some (Err.cast "bool" val))
      | some b => some (Val.bool b, none)
    | Ty.slice elem =>
      if elem.isString then
        match val with
        | Dyn.seq v =>
          match toStrings K v with
          | none => some (cur, some (Err.cast "string" (firstNotString K v)))
          | some strSlice => some (Val.slice (some (strSlice.map Val.str)), none)
        | Dyn.strs v => some (Val.slice (some (v.map Val.str)), none)
        | _ => some (cur, some (Err.cannotConvert val "[]string"))
      else
        match K.ToSliceE val with
        | none => some (cur, some (Err.cast "[]interface {}" val))
        | some slice =>
          Res.mapVal (fun xs => Val.slice (some xs))
            (setElems (fun v => setField K env fuel c elem (zero elem) v {}) (zero elem) slice)
    | Ty.map elem =>
      match K.ToStringMapE val with
      | none => some (cur, some (Err.cast "map[string]interface {}" val))
      | some m =>
        Res.mapVal (fun kvs => Val.map (some kvs))
          (setEntries (fun v => setField K env fuel c elem (zero elem) v {}) m [])
    | Ty.ptr elem =>
      Res.mapVal (fun v => Val.ptr (some v))
        (setField K env fuel c elem (ptrElem (zero elem) cur) val opts)
    | Ty.struct fields =>
      match val with
      | Dyn.map m => Res.mapVal Val.struct (parseStruct K env fuel c fields (structVals cur) m)
      | _ => some (cur, some (Err.cannotConvert val "struct"))
    | Ty.other kind => some (cur, some (Err.unsupported kind))
/-- The body of the loop of `parseStruct` for one field of content `cur`: the
field's content after it and the error that ends the loop, if any.  `scope` is the map
the nested structure is bound against, `leaf` the call of `parseField` made when the
field is not a structure. -/
def parseStructField (K : Lib) (env : Env) (fuel : Nat) (c : Config) :
    StructField → Val → List (String × Dyn) → Res Val
  | StructField.mk name tag anonymous canSet ty, cur, curMap =>
    if !canSet then some (cur, none)
    else if tagGet tag c.options.TagName = "-" then some (cur, none)
    else
      let parsed := parseTag K (tagGet tag c.options.TagName)
      let fieldName := if parsed.1 = "" then name else parsed.1
      let opts := parsed.2
      let scope := if anonymous then curMap else (getNestedMap K c curMap fieldName).getD []
      let leaf := parseField K env fuel c (fun v o => setField K env fuel c ty cur v o) cur
        fieldName opts curMap
      match ty with
      | Ty.struct sub =>
        Res.mapVal Val.struct (parseStruct K env fuel c sub (structVals cur) scope)
      | Ty.ptr (Ty.struct sub) =>
        Res.mapVal (fun vs => Val.ptr (some (Val.struct vs)))
          (parseStruct K env fuel c sub (ptrStructVals cur) scope)
      | _ =>
        match leaf with
        | none => none
        | some (v, some e) => some (v, some (Err.field name e))
        | some (v, none) => some (v, none)
/-- Method `Config.parseStruct` of `parser.go`: the loop over the fields of a structure
type, from the fields' contents `vals` (a content that `vals` lacks is the zero value)
and the scope `curMap`.  An error ends the loop and leaves the later fields as they are. -/
def parseStruct (K : Lib) (env : Env) (fuel : Nat) (c : Config) :
    List StructField → List Val → List (String × Dyn) → Res (List Val)
  | [], _, _ => some ([], none)
  | f :: fs, vals, curMap =>
    match parseStructField K env fuel c f (vals.headD (zero f.ty)) curMap with
    | none => none
    | some (v, some e) => some (v :: fieldVals fs vals.tail, some e)
    | some (v, none) =>
      Res.mapVal (fun rest => v :: rest) (parseStruct K env fuel c fs vals.tail curMap)
end

/-- The argument `v any` of `Parse` as `reflect.ValueOf` shows it: a value whose kind is
not `Ptr`, a nil pointer, or a pointer to storage of type `ty` and content `v`. -/
inductive Target where
  | notPtr
  | nilPtr
  | ptr (ty : Ty) (v : Val)

/-- Method `Config.Parse` of `parser.go`. -/
def Parse (K : Lib) (env : Env) (fuel : Nat) (c : Config) : Target → Res Target
  | Target.ptr (Ty.struct fields) v =>
    Res.mapVal (fun vs => Target.ptr (Ty.struct fields) (Val.struct vs))
      (parseStruct K env fuel c fields (structVals v) c.data)
  | Target.ptr ty v => some (Target.ptr ty v, some Err.notStruct)
  | t => some (t, some Err.notPointer)

/-! ## config.go and option.go -/

mutual
/-- The loop of `buildCaseInsensitiveMap` over the entries of `data`, `acc` being the
map `caseInsensitive` built so far. -/
def buildCaseInsensitiveLoop (K : Lib) :
    List (String × Dyn) → List (String × Dyn) → List (String × Dyn)
  | [], acc => acc
  | (key, val) :: rest, acc =>
    buildCaseInsensitiveLoop K rest (mapSet acc (K.ToLower key) (buildCaseInsensitiveVal K val))
/-- The type switch in the loop of `buildCaseInsensitiveMap`: the value stored under
the lower-cased key. -/
def buildCaseInsensitiveVal (K : Lib) : Dyn → Dyn
  | Dyn.map v => Dyn.map (buildCaseInsensitiveLoop K v [])
  | v => v
end

/-- Function `buildCaseInsensitiveMap` of `config.go`. -/
def buildCaseInsensitiveMap (K : Lib) (data : List (String × Dyn)) : List (String × Dyn) :=
  buildCaseInsensitiveLoop K data []

/-- Method `Config.buildCaseInsensitiveCache` of `config.go`. -/
def buildCaseInsensitiveCache (K : Lib) (c : Config) : Config :=
  { c with data := buildCaseInsensitiveMap K c.data }

/-- Type `Option` of `option.go`: a function that changes a `Config`. -/
abbrev Opt := Config → Config

/-- Function `WithIgnoreCase` of `option.go`. -/
def WithIgnoreCase (ignore : Bool) : Opt :=
  fun c => { c with options := { c.options with IgnoreCase := ignore } }

/-- Function `WithTagName` of `option.go`. -/
def WithTagName (name : String) : Opt :=
  fun c => { c with options := { c.options with TagName := name } }

/-- Function `WithDefaults` of `option.go`. -/
def WithDefaults (use : Bool) : Opt :=
  fun c => { c with options := { c.options with UseDefaults := use } }

/-- Function `WithEnv` of `option.go`. -/
def WithEnv (use : Bool) : Opt :=
  fun c => { c with options := { c.options with UseEnv := use } }

/-- Function `New` of `config.go`. -/
def New (opts : List Opt) : Config :=
  opts.foldl (fun c opt => opt c)
    { options := { IgnoreCase := true, TagName := "meta", UseDefaults := true, UseEnv := true },
      data := [] }

/-- Methods `LoadJSON`, `LoadYAML` and `LoadTOML` of `loader.go`, given the map `tree`
the decoder produces from the bytes: it becomes `c.data`. -/
def LoadData (c : Config) (tree : List (String × Dyn)) : Config :=
  { c with data := tree }

/-- Function `Load` of `config.go` on a file that decodes to `tree`. -/
def Load (K : Lib) (env : Env) (fuel : Nat) (tree : List (String × Dyn)) (v : Target)
    (opts : List Opt) : Res Target :=
  let c := LoadData (New opts) tree
  let c := if c.options.IgnoreCase then buildCaseInsensitiveCache K c else c
  match Parse K env fuel c v with
  | none => none
  | some (t, some e) => some (t, some (Err.parseConfig e))
  | some (t, none) => some (t, none)

/-! ## An instance of `Lib` for running the binder on examples -/

/-- Lower-casing of the ASCII letters of a string. -/
def asciiToLower (s : String) : String :=
  String.mk (s.data.map Char.toLower)

/-- An instance of `Lib`.  It gives the results of the Go functions on the inputs
listed here and `none` on every other input (where the Go function may still succeed):
`strings.ToLower` on ASCII letters; `cast.ToStringE` on strings, booleans and nil;
`cast.ToInt64E` on integers, booleans and nil; `cast.ToBoolE` on booleans, nil and
strings; `cast.ToDurationE` on integers; `cast.ToFloat64E` on floats; `cast.ToSliceE`
on `[]any`; `cast.ToStringMapE` on `map[string]any`.  `strconv.ParseFloat` accepts
nothing in it and `float32` changes nothing. -/
def sampleLib : Lib where
  ToLower := asciiToLower
  ParseFloat := fun _ => none
  float32 := fun f => f
  ToDurationE := fun v => match v with
    | Dyn.int n => some n
    | _ => none
  ToStringE := fun v => match v with
    | Dyn.str s => some s
    | Dyn.bool b => some (if b then "true" else "false")
    | Dyn.null => some ""
    | _ => none
  ToInt64E := fun v => match v with
    | Dyn.int n => some n
    | Dyn.bool b => some (if b then 1 else 0)
    | Dyn.null => some 0
    | _ => none
  ToFloat64E := fun v => match v with
    | Dyn.float f => some f
    | _ => none
  ToBoolE := fun v => match v with
    | Dyn.bool b => some b
    | Dyn.null => some false
    | Dyn.str s => ParseBool s
    | _ => none
  ToSliceE := fun v => match v with
    | Dyn.seq xs => some xs
    | _ => none
  ToStringMapE := fun v => match v with
    | Dyn.map m => some m
    | _ => none

/-- The empty process environment. -/
def noEnv : Env :=
  fun _ => none

/-! ## Notions used in the statements -/

/-- The field names an error is annotated with, outermost first. -/
def Err.path : Err → List String
  | Err.field name cause => name :: Err.path cause
  | Err.parseConfig cause => Err.path cause
  | _ => []

/-- An environment whose only variable is `A`, set to the placeholder of `A` itself. -/
def selfRefEnv : Env :=
  fun key => if key = "A" then some "$\x7bA\x7d" else none

/-- The grammar of a default value in the words of the specification: a text that
starts with an opening brace and ends with a closing brace is the sequence of the
pieces, between `;`, of the text between the braces; any other text is the 64-bit
integer it denotes in base 10, else the float it denotes, else the boolean it denotes,
else the text itself. -/
def parseDefaultValueSpec (K : Lib) (v : String) : Dyn :=
  if v.data.head? = some '\x7b' ∧ v.data.getLast? = some '\x7d' then
    Dyn.strs (Split (String.mk (v.data.drop 1).dropLast) ';')
  else if (ParseInt v).isSome then Dyn.int ((ParseInt v).getD 0)
  else if (K.ParseFloat v).isSome then Dyn.float ((K.ParseFloat v).getD ⟨0⟩)
  else if (ParseBool v).isSome then Dyn.bool ((ParseBool v).getD false)
  else Dyn.str v

/-- An environment whose only variable is `A`, set to `x`. -/
def envAx : Env :=
  fun key => if key = "A" then some "x" else none

/-- An environment whose only variable is `A`, set to the three characters opening
brace, `B`, closing brace. -/
def braceEnv : Env :=
  fun key => if key = "A" then some "\x7bB\x7d" else none

/-- Every leaf field of a structure type that `parseStruct` binds is optional or
declares a default that its field accepts.  Fields that are not settable or are
annotated `-` are not bound; a structure or pointer-to-structure field is covered when
the fields of its structure are; a leaf field is covered when its descriptor is
optional, or declares a default from which `parseField` sets the field without error
(after environment resolution when `UseEnv` is on), whatever the field holds. -/
inductive DefaultsCover (K : Lib) (env : Env) (fuel : Nat) (c : Config) :
    List StructField → Prop where
  | nil : DefaultsCover K env fuel c []
  | notSettable (name : String) (tag : List (String × String)) (anonymous : Bool) (ty : Ty)
      (fs : List StructField) :
      DefaultsCover K env fuel c fs →
      DefaultsCover K env fuel c (StructField.mk name tag anonymous false ty :: fs)
  | dash (name : String) (tag : List (String × String)) (anonymous canSet : Bool) (ty : Ty)
      (fs : List StructField) :
      tagGet tag c.options.TagName = "-" →
      DefaultsCover K env fuel c fs →
      DefaultsCover K env fuel c (StructField.mk name tag anonymous canSet ty :: fs)
  | nested (name : String) (tag : List (String × String)) (anonymous : Bool)
      (sub fs : List StructField) :
      DefaultsCover K env fuel c sub →
      DefaultsCover K env fuel c fs →
      DefaultsCover K env fuel c (StructField.mk name tag anonymous true (Ty.struct sub) :: fs)
  | nestedPtr (name : String) (tag : List (String × String)) (anonymous : Bool)
      (sub fs : List StructField) :
      DefaultsCover K env fuel c sub →
      DefaultsCover K env fuel c fs →
      DefaultsCover K env fuel c
        (StructField.mk name tag anonymous true (Ty.ptr (Ty.struct sub)) :: fs)
  | optional (name : String) (tag : List (String × String)) (anonymous : Bool) (ty : Ty)
      (fs : List StructField) :
      ty.isStructOrPtrToStruct = false →
      (parseTag K (tagGet tag c.options.TagName)).2.optional = true →
      DefaultsCover K env fuel c fs →
      DefaultsCover K env fuel c (StructField.mk name tag anonymous true ty :: fs)
  | default (name : String) (tag : List (String × String)) (anonymous : Bool) (ty : Ty)
      (fs : List StructField) :
      ty.isStructOrPtrToStruct = false →
      (parseTag K (tagGet tag c.options.TagName)).2.hasDefault = true →
      (∀ cur, ∃ v,
        (if c.options.UseEnv then
          (resolveEnvVars env fuel c
            (parseTag K (tagGet tag c.options.TagName)).2.defaultValue).bind
            (fun r => setField K env fuel c ty cur r (parseTag K (tagGet tag c.options.TagName)).2)
        else setField K env fuel c ty cur
          (parseTag K (tagGet tag c.options.TagName)).2.defaultValue
          (parseTag K (tagGet tag c.options.TagName)).2) = some (v, none)) →
      DefaultsCover K env fuel c fs →
      DefaultsCover K env fuel c (StructField.mk name tag anonymous true ty :: fs)

mutual
/-- Every key of the mapping is the lower-casing of some key, and so is every key of a
mapping reached from it through mapping values only. -/
def KeysLowered (K : Lib) : List (String × Dyn) → Prop
  | [] => True
  | (k, v) :: rest => (∃ k0, k = K.ToLower k0) ∧ ValKeysLowered K v ∧ KeysLowered K rest
/-- A value that is a mapping has its keys lowered; nothing is asked of a value that is
not a mapping, so the items of a sequence are not looked into. -/
def ValKeysLowered (K : Lib) : Dyn → Prop
  | Dyn.map m => KeysLowered K m
  | _ => True
end

/-- The components of a descriptor other than the range constraint. -/
def tagOptions.withoutRange (o : tagOptions) : Bool × Dyn × Bool × List String × Bool :=
  (o.hasDefault, o.defaultValue, o.hasOptions, o.options, o.optional)

/-! ## Theorems -/

/-- Unfolding of the loop of `parseStruct` at its first field. -/
theorem parseStruct_cons (K : Lib) (env : Env) (fuel : Nat) (c : Config) (f : StructField)
    (fs : List StructField) (vals : List Val) (m : List (String × Dyn)) :
    parseStruct K env fuel c (f :: fs) vals m =
      match parseStructField K env fuel c f (vals.headD (zero f.ty)) m with
      | none => none
      | some (v, some e) => some (v :: fieldVals fs vals.tail, some e)
      | some (v, none) =>
        Res.mapVal (fun rest => v :: rest) (parseStruct K env fuel c fs vals.tail m) := by
  rfl

/-- C1. `parseField` follows the precedence chain.  With `k` the key, lower-cased when
`IgnoreCase` is on: if `k` is in the scope with value `v`, the outcome is that of setting
the field from `v` (after environment resolution when `UseEnv` is on) and the declared
default plays no part; if `k` is absent and the descriptor is optional, the field keeps
its content and no error is returned; if `k` is absent, the descriptor not optional and a
default declared, the outcome is that of setting the field from the default; if `k` is
absent, the descriptor not optional and no default declared, the field keeps its content
and the error is "required field is missing". -/
theorem parseField_precedence (K : Lib) (env : Env) (fuel : Nat) (c : Config)
    (set : Dyn → tagOptions → Res Val) (cur : Val) (key : String) (opts : tagOptions)
    (curMap : List (String × Dyn)) :
    (∀ v, curMap.lookup (if c.options.IgnoreCase then K.ToLower key else key) = some v →
      parseField K env fuel c set cur key opts curMap =
        if c.options.UseEnv then (resolveEnvVars env fuel c v).bind (fun r => set r opts)
        else set v opts) ∧
    (curMap.lookup (if c.options.IgnoreCase then K.ToLower key else key) = none →
      opts.optional = true →
      parseField K env fuel c set cur key opts curMap = some (cur, none)) ∧
    (curMap.lookup (if c.options.IgnoreCase then K.ToLower key else key) = none →
      opts.optional = false → opts.hasDefault = true →
      parseField K env fuel c set cur key opts curMap =
        if c.options.UseEnv then
          (resolveEnvVars env fuel c opts.defaultValue).bind (fun r => set r opts)
        else set opts.defaultValue opts) ∧
    (curMap.lookup (if c.options.IgnoreCase then K.ToLower key else key) = none →
      opts.optional = false → opts.hasDefault = false →
      parseField K env fuel c set cur key opts curMap = some (cur, some Err.requiredMissing)) := by
  refine ⟨?_, ?_, ?_, ?_⟩
  · intro v hv
    simp only [parseField, getValueFromMap, hv]
    cases c.options.UseEnv
    · simp
    · cases h : resolveEnvVars env fuel c v <;> simp [h]
  · intro hv ho
    simp [parseField, getValueFromMap, hv, ho]
  · intro hv ho hd
    simp only [parseField, getValueFromMap, hv, ho, hd]
    cases c.options.UseEnv
    · simp
    · cases h : resolveEnvVars env fuel c opts.defaultValue <;> simp [h]
  · intro hv ho hd
    simp [parseField, getValueFromMap, hv, ho, hd]

/-- C1, at concrete inputs: an integer field `Port` with annotation `port,default=5` and
case-insensitive lookup, bound from a scope that holds `port: 8`, from an empty scope,
and, with the annotations `port,optional` and `port`, from an empty scope. -/
theorem parseField_precedence_witness :
    parseField sampleLib noEnv 1 (New [])
        (setField sampleLib noEnv 1 (New []) (Ty.int 64) (Val.int 0)) (Val.int 0) "Port"
        (parseTag sampleLib "port,default=5").2 [("port", Dyn.int 8)] = some (Val.int 8, none) ∧
    parseField sampleLib noEnv 1 (New [])
        (setField sampleLib noEnv 1 (New []) (Ty.int 64) (Val.int 0)) (Val.int 0) "Port"
        (parseTag sampleLib "port,optional").2 [] = some (Val.int 0, none) ∧
    parseField sampleLib noEnv 1 (New [])
        (setField sampleLib noEnv 1 (New []) (Ty.int 64) (Val.int 0)) (Val.int 0) "Port"
        (parseTag sampleLib "port,default=5").2 [] = some (Val.int 5, none) ∧
    parseField sampleLib noEnv 1 (New [])
        (setField sampleLib noEnv 1 (New []) (Ty.int 64) (Val.int 0)) (Val.int 0) "Port"
        (parseTag sampleLib "port").2 [] = some (Val.int 0, some Err.requiredMissing) :=
  ⟨((parseField_precedence sampleLib noEnv 1 (New [])
      (setField sampleLib noEnv 1 (New []) (Ty.int 64) (Val.int 0)) (Val.int 0) "Port"
      (parseTag sampleLib "port,default=5").2 [("port", Dyn.int 8)]).1 (Dyn.int 8) rfl).trans rfl,
   (parseField_precedence sampleLib noEnv 1 (New [])
      (setField sampleLib noEnv 1 (New []) (Ty.int 64) (Val.int 0)) (Val.int 0) "Port"
      (parseTag sampleLib "port,optional").2 []).2.1 rfl rfl,
   ((parseField_precedence sampleLib noEnv 1 (New [])
      (setField sampleLib noEnv 1 (New []) (Ty.int 64) (Val.int 0)) (Val.int 0) "Port"
      (parseTag sampleLib "port,default=5").2 []).2.2.1 rfl rfl rfl).trans rfl,
   (parseField_precedence sampleLib noEnv 1 (New [])
      (setField sampleLib noEnv 1 (New []) (Ty.int 64) (Val.int 0)) (Val.int 0) "Port"
      (parseTag sampleLib "port").2 []).2.2.2 rfl rfl rfl⟩

/-- C2 (evaluation at the failing input). With the options of `New` (case-insensitive
matching on), `Parse` on the tree `Foo: 1` as `LoadJSON` stores it fails on the field
of target name `Foo` with "required field is missing", while on the tree `foo: 1` it sets
the field to 1; through `Load`, which normalizes the tree first, both trees set it to 1. -/
theorem Parse_key_case_without_normalization :
    Parse sampleLib noEnv 1 (LoadData (New []) [("Foo", Dyn.int 1)])
        (Target.ptr (Ty.struct [StructField.mk "Foo" [("meta", "Foo")] false true (Ty.int 64)])
          (Val.struct [Val.int 0])) =
      some (Target.ptr (Ty.struct [StructField.mk "Foo" [("meta", "Foo")] false true (Ty.int 64)])
          (Val.struct [Val.int 0]), some (Err.field "Foo" Err.requiredMissing)) ∧
    Parse sampleLib noEnv 1 (LoadData (New []) [("foo", Dyn.int 1)])
        (Target.ptr (Ty.struct [StructField.mk "Foo" [("meta", "Foo")] false true (Ty.int 64)])
          (Val.struct [Val.int 0])) =
      some (Target.ptr (Ty.struct [StructField.mk "Foo" [("meta", "Foo")] false true (Ty.int 64)])
          (Val.struct [Val.int 1]), none) ∧
    Load sampleLib noEnv 1 [("Foo", Dyn.int 1)]
        (Target.ptr (Ty.struct [StructField.mk "Foo" [("meta", "Foo")] false true (Ty.int 64)])
          (Val.struct [Val.int 0])) [] =
      some (Target.ptr (Ty.struct [StructField.mk "Foo" [("meta", "Foo")] false true (Ty.int 64)])
          (Val.struct [Val.int 1]), none) ∧
    Load sampleLib noEnv 1 [("foo", Dyn.int 1)]
        (Target.ptr (Ty.struct [StructField.mk "Foo" [("meta", "Foo")] false true (Ty.int 64)])
          (Val.struct [Val.int 0])) [] =
      some (Target.ptr (Ty.struct [StructField.mk "Foo" [("meta", "Foo")] false true (Ty.int 64)])
          (Val.struct [Val.int 1]), none) :=
  ⟨rfl, rfl, rfl, rfl⟩

/-- C3 (amended). On a signed integer field (`int`, `int8`, `int16`, `int32`, `int64`;
not `time.Duration`) whose descriptor declares a range, `validateRange` accepts
an integer `v` exactly when `rangeMin ≤ v ≤ rangeMax`, both bounds included, and so does
`setField`: inside the range it stores `v` (narrowed to the field's width) without error,
outside it leaves the field as it is and returns the range error.  A descriptor without a
range makes `validateRange` accept every value. -/
theorem validateRange_inclusive (K : Lib) (env : Env) (fuel : Nat) (c : Config) (bits : Nat)
    (cur : Val) (v : Int) (opts : tagOptions) (hr : opts.hasRange = true)
    (hc : K.ToInt64E (Dyn.int v) = some v) :
    (validateRange v opts = none ↔ opts.rangeMin ≤ v ∧ v ≤ opts.rangeMax) ∧
    (setField K env fuel c (Ty.int bits) cur (Dyn.int v) opts =
      if opts.rangeMin ≤ v ∧ v ≤ opts.rangeMax then some (Val.int (wrapInt bits v), none)
      else some (cur, some (Err.range opts.rangeMin opts.rangeMax))) ∧
    (∀ (o : tagOptions) (n : Int), o.hasRange = false → validateRange n o = none) := by
  have hv : validateRange v opts =
      if opts.rangeMin ≤ v ∧ v ≤ opts.rangeMax then none
      else some (Err.range opts.rangeMin opts.rangeMax) := by
    unfold validateRange
    by_cases h : opts.rangeMin ≤ v ∧ v ≤ opts.rangeMax
    · have h1 : ¬ (v < opts.rangeMin ∨ v > opts.rangeMax) := by omega
      simp [hr, h, h1]
    · have h1 : v < opts.rangeMin ∨ v > opts.rangeMax := by omega
      simp [hr, h, h1]
  refine ⟨?_, ?_, ?_⟩
  · rw [hv]
    by_cases h : opts.rangeMin ≤ v ∧ v ≤ opts.rangeMax <;> simp [h]
  · rw [setField]
    simp only [Dyn.isNil, hc, hv]
    by_cases h : opts.rangeMin ≤ v ∧ v ≤ opts.rangeMax <;> simp [h]
  · intro o n ho
    simp [validateRange, ho]

/-- C3 (counterexample). Two integer-kind fields on which `setField` does not accept
exactly the values of the declared range `[1:10]`: a `time.Duration` field (kind `Int64`)
is set by the special case that precedes the range check, so 100 is stored without error;
and an unsigned integer field has no case in `setField`, so 5 is refused as an unsupported
field type. -/
theorem setField_range_not_checked_on_duration :
    (parseTag sampleLib "timeout,range=[1:10]").2.hasRange = true ∧
    (parseTag sampleLib "timeout,range=[1:10]").2.rangeMin = 1 ∧
    (parseTag sampleLib "timeout,range=[1:10]").2.rangeMax = 10 ∧
    setField sampleLib noEnv 1 (New []) Ty.duration (Val.int 0) (Dyn.int 100)
        (parseTag sampleLib "timeout,range=[1:10]").2 = some (Val.int 100, none) ∧
    setField sampleLib noEnv 1 (New []) (Ty.other "uint") Val.other (Dyn.int 5)
        (parseTag sampleLib "timeout,range=[1:10]").2 =
      some (Val.other, some (Err.unsupported "uint")) :=
  ⟨rfl, rfl, rfl, rfl, rfl⟩

/-- C3 (amended), at concrete inputs: with the annotation `port,range=[1:10]` on an `int`
field, the value 10 is stored and the value 11 is refused with the range error. -/
theorem validateRange_inclusive_witness :
    ((validateRange 10 (parseTag sampleLib "port,range=[1:10]").2 = none ↔
        (parseTag sampleLib "port,range=[1:10]").2.rangeMin ≤ 10 ∧
          10 ≤ (parseTag sampleLib "port,range=[1:10]").2.rangeMax) ∧
      (setField sampleLib noEnv 1 (New []) (Ty.int 64) (Val.int 0) (Dyn.int 10)
          (parseTag sampleLib "port,range=[1:10]").2 =
        if (parseTag sampleLib "port,range=[1:10]").2.rangeMin ≤ 10 ∧
            10 ≤ (parseTag sampleLib "port,range=[1:10]").2.rangeMax
        then some (Val.int (wrapInt 64 10), none)
        else some (Val.int 0, some (Err.range (parseTag sampleLib "port,range=[1:10]").2.rangeMin
          (parseTag sampleLib "port,range=[1:10]").2.rangeMax))) ∧
      (∀ (o : tagOptions) (n : Int), o.hasRange = false → validateRange n o = none)) ∧
    setField sampleLib noEnv 1 (New []) (Ty.int 64) (Val.int 0) (Dyn.int 10)
        (parseTag sampleLib "port,range=[1:10]").2 = some (Val.int 10, none) ∧
    setField sampleLib noEnv 1 (New []) (Ty.int 64) (Val.int 0) (Dyn.int 11)
        (parseTag sampleLib "port,range=[1:10]").2 = some (Val.int 0, some (Err.range 1 10)) :=
  ⟨validateRange_inclusive sampleLib noEnv 1 (New []) 64 (Val.int 0) 10
      (parseTag sampleLib "port,range=[1:10]").2 rfl rfl, rfl, rfl⟩

/-- The pass of the loop of `parseTag` for a segment that, trimmed, is `options=` followed
by `body`: the options become the pieces of `body` between the `|`. -/
theorem parseTagPart_options (K : Lib) (opts : tagOptions) (part body : String)
    (h : TrimSpace part = "options=" ++ body) :
    parseTagPart K opts part =
      { opts with hasOptions := true, options := Split body '|' } := by
  have hdata : ("options=" ++ body).data =
      'o' :: 'p' :: 't' :: 'i' :: 'o' :: 'n' :: 's' :: '=' :: body.data := by
    simp [String.data_append]
  have hne : ("options=" ++ body) ≠ "" := by
    intro hh
    have := congrArg String.data hh
    rw [hdata] at this
    simp at this
  have hd : HasPrefix ("options=" ++ body) "default=" = false := by
    have : ("default=" : String).data = ['d', 'e', 'f', 'a', 'u', 'l', 't', '='] := rfl
    simp [HasPrefix, hdata, this, List.isPrefixOf]
  have hr : HasPrefix ("options=" ++ body) "range=" = false := by
    have : ("range=" : String).data = ['r', 'a', 'n', 'g', 'e', '='] := rfl
    simp [HasPrefix, hdata, this, List.isPrefixOf]
  have ho : HasPrefix ("options=" ++ body) "options=" = true := by
    have : ("options=" : String).data = ['o', 'p', 't', 'i', 'o', 'n', 's', '='] := rfl
    simp [HasPrefix, hdata, this, List.isPrefixOf]
  have hs : sliceFrom ("options=" ++ body) 8 = body := by
    simp [sliceFrom, hdata]
  simp [parseTagPart, h, hne, hd, hr, ho, hs]

/-- The pass of the loop of `parseTag` for a segment that, trimmed, does not start with
`options=` leaves the recorded options as they are. -/
theorem parseTagPart_other (K : Lib) (opts : tagOptions) (part : String)
    (h : HasPrefix (TrimSpace part) "options=" = false) :
    (parseTagPart K opts part).hasOptions = opts.hasOptions ∧
    (parseTagPart K opts part).options = opts.options := by
  unfold parseTagPart
  simp only [h]
  split
  · exact ⟨rfl, rfl⟩
  · split
    · exact ⟨rfl, rfl⟩
    · split
      · split <;> exact ⟨rfl, rfl⟩
      · split
        · rename_i hc
          simp at hc
        · split <;> exact ⟨rfl, rfl⟩

/-- Segments that do not start with `options=` leave the recorded options as they are. -/
theorem foldl_parseTagPart_other (K : Lib) (post : List String)
    (h : ∀ q ∈ post, HasPrefix (TrimSpace q) "options=" = false) (opts : tagOptions) :
    (post.foldl (parseTagPart K) opts).hasOptions = opts.hasOptions ∧
    (post.foldl (parseTagPart K) opts).options = opts.options := by
  induction post generalizing opts with
  | nil => exact ⟨rfl, rfl⟩
  | cons q rest ih =>
    have hq := parseTagPart_other K opts q (h q (List.mem_cons_self _ _))
    have hrest := ih (fun x hx => h x (List.mem_cons_of_mem _ hx)) (parseTagPart K opts q)
    simp only [List.foldl_cons]
    exact ⟨hrest.1.trans hq.1, hrest.2.trans hq.2⟩

/-- The descriptor `parseTag` builds: the loop over the segments after the first. -/
theorem parseTag_snd (K : Lib) (tag : String) :
    (parseTag K tag).2 = (Split tag ',').tail.foldl (parseTagPart K) {} := by
  unfold parseTag
  by_cases h : tag = ""
  · subst h
    rfl
  · simp only [h, if_false]
    cases Split tag ',' <;> rfl

/-- `validateOptions` on a descriptor with options: membership in the list. -/
theorem validateOptions_eq (v : String) (o : tagOptions) (h : o.hasOptions = true) :
    validateOptions v o = if v ∈ o.options then none else some (Err.options o.options) := by
  unfold validateOptions
  by_cases hm : v ∈ o.options
  · have : o.options.any (fun opt => v == opt) = true := by
      simp only [List.any_eq_true, beq_iff_eq]
      exact ⟨v, hm, rfl⟩
    simp [h, hm, this]
  · have : o.options.any (fun opt => v == opt) = false := by
      cases hany : o.options.any (fun opt => v == opt) with
      | false => rfl
      | true =>
        simp only [List.any_eq_true, beq_iff_eq] at hany
        obtain ⟨x, hx, rfl⟩ := hany
        exact absurd hx hm
    simp [h, hm, this]

/-- C4. Take an annotation one of whose segments after the name is, once trimmed,
`options=` followed by `body`, the segments after it not being `options=` segments.
`parseTag` records as options the pieces of `body` between the `|`, in their order, and
a string `v` bound into a string field is accepted exactly when it equals one of them:
`validateOptions` returns no error exactly then and `setField` stores `v`; otherwise
`validateOptions` and `setField` return the options error, which lists the items in
declaration order, and the field is left as it is. -/
theorem validateOptions_accepts_iff (K : Lib) (env : Env) (fuel : Nat) (c : Config)
    (tag part body : String) (pre post : List String) (cur : Val) (v : String)
    (hsplit : (Split tag ',').tail = pre ++ part :: post)
    (hpart : TrimSpace part = "options=" ++ body)
    (hpost : ∀ q ∈ post, HasPrefix (TrimSpace q) "options=" = false)
    (hc : K.ToStringE (Dyn.str v) = some v) :
    (parseTag K tag).2.hasOptions = true ∧
    (parseTag K tag).2.options = Split body '|' ∧
    (validateOptions v (parseTag K tag).2 = none ↔ v ∈ Split body '|') ∧
    (v ∈ Split body '|' →
      setField K env fuel c Ty.string cur (Dyn.str v) (parseTag K tag).2 =
        some (Val.str v, none)) ∧
    (v ∉ Split body '|' →
      validateOptions v (parseTag K tag).2 = some (Err.options (Split body '|')) ∧
      setField K env fuel c Ty.string cur (Dyn.str v) (parseTag K tag).2 =
        some (cur, some (Err.options (Split body '|')))) := by
  have hopts : (parseTag K tag).2.hasOptions = true ∧
      (parseTag K tag).2.options = Split body '|' := by
    rw [parseTag_snd, hsplit, List.foldl_append, List.foldl_cons]
    have h1 := foldl_parseTagPart_other K post hpost
      (parseTagPart K (pre.foldl (parseTagPart K) {}) part)
    have hp := parseTagPart_options K (pre.foldl (parseTagPart K) {}) part body hpart
    exact ⟨h1.1.trans (by rw [hp]), h1.2.trans (by rw [hp])⟩
  obtain ⟨ho, hl⟩ := hopts
  have hv := validateOptions_eq v (parseTag K tag).2 ho
  rw [hl] at hv
  refine ⟨ho, hl, ?_, ?_, ?_⟩
  · rw [hv]
    by_cases hm : v ∈ Split body '|' <;> simp [hm]
  · intro hm
    rw [setField]
    simp [Dyn.isNil, hc, hv, hm]
  · intro hm
    refine ⟨by simp [hv, hm], ?_⟩
    rw [setField]
    simp [Dyn.isNil, hc, hv, hm]

/-- C4, at concrete inputs: the annotation `mode,options=a|b|c,optional` records the
items `a`, `b`, `c` in this order; the value `b` is stored, the value `d` is refused. -/
theorem validateOptions_accepts_iff_witness :
    ((parseTag sampleLib "mode,options=a|b|c,optional").2.hasOptions = true ∧
      (parseTag sampleLib "mode,options=a|b|c,optional").2.options = Split "a|b|c" '|' ∧
      (validateOptions "b" (parseTag sampleLib "mode,options=a|b|c,optional").2 = none ↔
        "b" ∈ Split "a|b|c" '|') ∧
      ("b" ∈ Split "a|b|c" '|' →
        setField sampleLib noEnv 1 (New []) Ty.string (Val.str "") (Dyn.str "b")
          (parseTag sampleLib "mode,options=a|b|c,optional").2 = some (Val.str "b", none)) ∧
      ("b" ∉ Split "a|b|c" '|' →
        validateOptions "b" (parseTag sampleLib "mode,options=a|b|c,optional").2 =
          some (Err.options (Split "a|b|c" '|')) ∧
        setField sampleLib noEnv 1 (New []) Ty.string (Val.str "") (Dyn.str "b")
          (parseTag sampleLib "mode,options=a|b|c,optional").2 =
          some (Val.str "", some (Err.options (Split "a|b|c" '|'))))) ∧
    Split "a|b|c" '|' = ["a", "b", "c"] ∧
    setField sampleLib noEnv 1 (New []) Ty.string (Val.str "") (Dyn.str "d")
        (parseTag sampleLib "mode,options=a|b|c,optional").2 =
      some (Val.str "", some (Err.options ["a", "b", "c"])) :=
  ⟨validateOptions_accepts_iff sampleLib noEnv 1 (New []) "mode,options=a|b|c,optional"
      "options=a|b|c" "a|b|c" [] ["optional"] (Val.str "") "b" rfl rfl (by decide) rfl,
    rfl, rfl⟩

/-- C8 (evaluation at the failing input). With `WithDefaults(false)`, binding an empty
tree into a non-optional `int` field annotated `port,default=5` still sets the field to
the declared default 5, exactly as with `WithDefaults(true)`. -/
theorem Parse_WithDefaults_false_applies_default :
    (New [WithDefaults false]).options.UseDefaults = false ∧
    Parse sampleLib noEnv 1 (LoadData (New [WithDefaults false]) [])
        (Target.ptr (Ty.struct [StructField.mk "Port" [("meta", "port,default=5")] false true
          (Ty.int 64)]) (Val.struct [Val.int 0])) =
      some (Target.ptr (Ty.struct [StructField.mk "Port" [("meta", "port,default=5")] false true
          (Ty.int 64)]) (Val.struct [Val.int 5]), none) ∧
    Parse sampleLib noEnv 1 (LoadData (New [WithDefaults true]) [])
        (Target.ptr (Ty.struct [StructField.mk "Port" [("meta", "port,default=5")] false true
          (Ty.int 64)]) (Val.struct [Val.int 0])) =
      some (Target.ptr (Ty.struct [StructField.mk "Port" [("meta", "port,default=5")] false true
          (Ty.int 64)]) (Val.struct [Val.int 5]), none) :=
  ⟨rfl, rfl, rfl⟩

/-- `setField` on the value nil: a pointer field becomes nil without error, any other
field is left as it is and the error is "cannot set nil to non-pointer field". -/
theorem setField_null (K : Lib) (env : Env) (fuel : Nat) (c : Config) (ty : Ty) (cur : Val)
    (opts : tagOptions) :
    setField K env fuel c ty cur Dyn.null opts =
      if ty.isPtr then some (Val.ptr none, none) else some (cur, some Err.nilToNonPointer) := by
  cases ty <;> rw [setField] <;> simp [Dyn.isNil, Ty.isPtr]

/-- C5 (counterexample). An annotation whose first segment is `-` but that has further
segments does not make `parseStruct` skip the field: with `-,default=5` and an empty tree
the field is set to 5, and with `-,optional` and a tree that holds the key `-` the value
found there is bound, here with a coercion error. -/
theorem parseStruct_dash_with_segments_not_skipped :
    (parseTag sampleLib "-,default=5").1 = "-" ∧
    parseStruct sampleLib noEnv 1 (New [])
        [StructField.mk "Secret" [("meta", "-,default=5")] false true (Ty.int 64)]
        [Val.int 0] [] = some ([Val.int 5], none) ∧
    parseStruct sampleLib noEnv 1 (New [])
        [StructField.mk "Secret" [("meta", "-,optional")] false true (Ty.int 64)]
        [Val.int 0] [("-", Dyn.str "x")] =
      some ([Val.int 0], some (Err.field "Secret" (Err.cast "int64" (Dyn.str "x")))) :=
  ⟨rfl, rfl, rfl⟩

/-- C5 (amended). A field whose annotation is exactly `-` is skipped by `parseStruct`:
whatever the scope holds, the pass of the loop for this field leaves the field's content
as it is and returns no error, and the outcome of `parseStruct` is the outcome for the
remaining fields with this field's content put in front. -/
theorem parseStruct_skips_dash (K : Lib) (env : Env) (fuel : Nat) (c : Config) (name : String)
    (tag : List (String × String)) (anonymous canSet : Bool) (ty : Ty) (fs : List StructField)
    (vals : List Val) (curMap : List (String × Dyn))
    (hdash : tagGet tag c.options.TagName = "-") :
    (∀ cur, parseStructField K env fuel c (StructField.mk name tag anonymous canSet ty) cur curMap =
      some (cur, none)) ∧
    parseStruct K env fuel c (StructField.mk name tag anonymous canSet ty :: fs) vals curMap =
      Res.mapVal (fun rest => vals.headD (zero ty) :: rest)
        (parseStruct K env fuel c fs vals.tail curMap) := by
  have h : ∀ cur, parseStructField K env fuel c (StructField.mk name tag anonymous canSet ty) cur
      curMap = some (cur, none) := by
    intro cur
    rw [parseStructField]
    simp [hdash]
  refine ⟨h, ?_⟩
  rw [parseStruct_cons, h]
  rfl

/-- C5 (amended), at concrete inputs: a field annotated `-` keeps its content 7 although
the tree holds values under `-` and under the field's name. -/
theorem parseStruct_skips_dash_witness :
    (∀ cur, parseStructField sampleLib noEnv 1 (New [])
        (StructField.mk "Secret" [("meta", "-")] false true (Ty.int 64)) cur
        [("-", Dyn.str "x"), ("secret", Dyn.int 1)] = some (cur, none)) ∧
    parseStruct sampleLib noEnv 1 (New [])
        (StructField.mk "Secret" [("meta", "-")] false true (Ty.int 64) :: [])
        [Val.int 7] [("-", Dyn.str "x"), ("secret", Dyn.int 1)] =
      Res.mapVal (fun rest => [Val.int 7].headD (zero (Ty.int 64)) :: rest)
        (parseStruct sampleLib noEnv 1 (New []) [] [Val.int 7].tail
          [("-", Dyn.str "x"), ("secret", Dyn.int 1)]) :=
  parseStruct_skips_dash sampleLib noEnv 1 (New []) "Secret" [("meta", "-")] false true
    (Ty.int 64) [] [Val.int 7] [("-", Dyn.str "x"), ("secret", Dyn.int 1)] rfl

/-- C9 (counterexample). A pointer-to-structure field whose key holds nil is not nil
after binding: it is allocated and its structure bound against an empty mapping; and a
plain structure field whose key holds nil is bound without error. -/
theorem parseStruct_null_on_struct_fields :
    parseStruct sampleLib noEnv 1 (New [])
        [StructField.mk "Server" [("meta", "server")] false true
          (Ty.ptr (Ty.struct [StructField.mk "Host" [("meta", "host,optional")] false true
            Ty.string]))]
        [Val.ptr none] [("server", Dyn.null)] =
      some ([Val.ptr (some (Val.struct [Val.str ""]))], none) ∧
    parseStruct sampleLib noEnv 1 (New [])
        [StructField.mk "Server" [("meta", "server")] false true
          (Ty.struct [StructField.mk "Host" [("meta", "host,optional")] false true Ty.string])]
        [Val.struct [Val.str ""]] [("server", Dyn.null)] =
      some ([Val.struct [Val.str ""]], none) :=
  ⟨rfl, rfl⟩

/-- C9 (amended). For a leaf field (neither a structure nor a pointer to a structure)
that `parseStruct` binds, whose key (lower-cased when `IgnoreCase` is on) is in the scope
with value nil: a pointer field is nil afterwards and no error is returned; a field that
is not a pointer keeps its content and the error, annotated with the field's name, is
"cannot set nil to non-pointer field". -/
theorem parseStructField_null_leaf (K : Lib) (env : Env) (fuel : Nat) (c : Config)
    (name : String) (tag : List (String × String)) (anonymous : Bool) (ty : Ty) (cur : Val)
    (curMap : List (String × Dyn))
    (hdash : tagGet tag c.options.TagName ≠ "-")
    (hleaf : ty.isStructOrPtrToStruct = false)
    (hnull : curMap.lookup
      (if c.options.IgnoreCase then
        K.ToLower (if (parseTag K (tagGet tag c.options.TagName)).1 = "" then name
          else (parseTag K (tagGet tag c.options.TagName)).1)
      else (if (parseTag K (tagGet tag c.options.TagName)).1 = "" then name
          else (parseTag K (tagGet tag c.options.TagName)).1)) = some Dyn.null) :
    parseStructField K env fuel c (StructField.mk name tag anonymous true ty) cur curMap =
      if ty.isPtr then some (Val.ptr none, none)
      else some (cur, some (Err.field name Err.nilToNonPointer)) := by
  have hres : resolveEnvVars env fuel c Dyn.null = some Dyn.null := by
    rw [resolveEnvVars] <;> intro v hv <;> cases hv
  have hfield : ∀ key opts,
      curMap.lookup (if c.options.IgnoreCase then K.ToLower key else key) = some Dyn.null →
      parseField K env fuel c (fun v o => setField K env fuel c ty cur v o) cur key opts curMap =
        if ty.isPtr then some (Val.ptr none, none) else some (cur, some Err.nilToNonPointer) := by
    intro key opts hk
    simp only [parseField, getValueFromMap, hk]
    cases c.options.UseEnv
    · simp [setField_null]
    · simp [hres, setField_null]
  rw [parseStructField]
  simp only [hdash]
  cases ty with
  | struct sub => simp [Ty.isStructOrPtrToStruct] at hleaf
  | ptr elem =>
    cases elem with
    | struct sub => simp [Ty.isStructOrPtrToStruct] at hleaf
    | _ => simp [hfield _ _ hnull, Ty.isPtr]
  | _ => simp [hfield _ _ hnull, Ty.isPtr]

/-- C9 (amended), at concrete inputs: from the tree `limit: nil`, a field of type pointer
to `int` that held 3 becomes nil. -/
theorem parseStructField_null_leaf_witness :
    parseStructField sampleLib noEnv 1 (New [])
        (StructField.mk "Limit" [("meta", "limit")] false true (Ty.ptr (Ty.int 64)))
        (Val.ptr (some (Val.int 3))) [("limit", Dyn.null)] =
      if (Ty.ptr (Ty.int 64)).isPtr then some (Val.ptr none, none)
      else some (Val.ptr (some (Val.int 3)), some (Err.field "Limit" Err.nilToNonPointer)) :=
  parseStructField_null_leaf sampleLib noEnv 1 (New []) "Limit" [("meta", "limit")] false
    (Ty.ptr (Ty.int 64)) (Val.ptr (some (Val.int 3))) [("limit", Dyn.null)]
    (by decide) rfl rfl

/-- C10 (counterexample). A required leaf field `Port` is missing inside the
non-anonymous structure field `Server`: the error `parseStruct` returns for the outer
structure is annotated with `Port` only; the name `Server` is not in it. -/
theorem parseStruct_nested_error_lacks_outer_name :
    parseStruct sampleLib noEnv 1 (New [])
        [StructField.mk "Server" [("meta", "server")] false true
          (Ty.struct [StructField.mk "Port" [("meta", "port")] false true (Ty.int 64)])]
        [Val.struct [Val.int 0]] [("server", Dyn.map [])] =
      some ([Val.struct [Val.int 0]], some (Err.field "Port" Err.requiredMissing)) ∧
    (Err.field "Port" Err.requiredMissing).path = ["Port"] :=
  ⟨rfl, rfl⟩

/-- C10 (amended). When binding the nested structure of a structure field `S`, or of a
pointer-to-structure field `S`, fails with error `e`, `parseStruct` returns for the outer
structure this same error `e`, not wrapped again: it carries the names the nested bind
put on it (that of the leaf field `F`), and the name of `S` is not added, at whatever
depth `S` lies.  The fields after `S` are left as they are. -/
theorem parseStruct_nested_error_unchanged (K : Lib) (env : Env) (fuel : Nat) (c : Config)
    (name : String) (tag : List (String × String)) (anonymous : Bool)
    (sub fs : List StructField) (vals : List Val) (curMap : List (String × Dyn))
    (hdash : tagGet tag c.options.TagName ≠ "-") :
    (∀ vs e,
      parseStruct K env fuel c sub (structVals (vals.headD (zero (Ty.struct sub))))
        (if anonymous then curMap
          else (getNestedMap K c curMap
            (if (parseTag K (tagGet tag c.options.TagName)).1 = "" then name
              else (parseTag K (tagGet tag c.options.TagName)).1)).getD []) = some (vs, some e) →
      parseStruct K env fuel c (StructField.mk name tag anonymous true (Ty.struct sub) :: fs)
        vals curMap = some (Val.struct vs :: fieldVals fs vals.tail, some e)) ∧
    (∀ vs e,
      parseStruct K env fuel c sub
        (ptrStructVals (vals.headD (zero (Ty.ptr (Ty.struct sub)))))
        (if anonymous then curMap
          else (getNestedMap K c curMap
            (if (parseTag K (tagGet tag c.options.TagName)).1 = "" then name
              else (parseTag K (tagGet tag c.options.TagName)).1)).getD []) = some (vs, some e) →
      parseStruct K env fuel c
        (StructField.mk name tag anonymous true (Ty.ptr (Ty.struct sub)) :: fs) vals curMap =
        some (Val.ptr (some (Val.struct vs)) :: fieldVals fs vals.tail, some e)) := by
  constructor
  · intro vs e hnested
    rw [parseStruct_cons, parseStructField]
    simp only [StructField.ty, hdash, hnested]
    simp [Res.mapVal]
  · intro vs e hnested
    rw [parseStruct_cons, parseStructField]
    simp only [StructField.ty, hdash, hnested]
    simp [Res.mapVal]

/-- C10 (amended), at concrete inputs: `Port` is required inside `Server`, itself inside
`App`; the scope is empty, and the error for the outermost structure is the one of the
innermost bind. -/
theorem parseStruct_nested_error_unchanged_witness :
    parseStruct sampleLib noEnv 1 (New [])
        (StructField.mk "App" [("meta", "app")] false true
          (Ty.struct [StructField.mk "Server" [("meta", "server")] false true
            (Ty.struct [StructField.mk "Port" [("meta", "port")] false true (Ty.int 64)])]) :: [])
        [] [] =
      some (Val.struct [Val.struct [Val.int 0]] :: fieldVals [] ([] : List Val).tail,
        some (Err.field "Port" Err.requiredMissing)) :=
  (parseStruct_nested_error_unchanged sampleLib noEnv 1 (New []) "App" [("meta", "app")] false
    [StructField.mk "Server" [("meta", "server")] false true
      (Ty.struct [StructField.mk "Port" [("meta", "port")] false true (Ty.int 64)])] [] [] []
    (by decide)).1 [Val.struct [Val.int 0]] (Err.field "Port" Err.requiredMissing) rfl

/-- `Index` of a one-character marker that does not occur. -/
theorem Index_single_none (c : Char) (a : List Char) (h : c ∉ a) : Index a [c] = none := by
  induction a with
  | nil => simp [Index]
  | cons x t ih =>
    have hx : c ≠ x := fun hcx => h (hcx ▸ List.mem_cons_self _ _)
    have ht : c ∉ t := fun hct => h (List.mem_cons_of_mem _ hct)
    simp [Index, List.isPrefixOf, hx, ih ht]

/-- `Index` of a one-character marker: its first occurrence. -/
theorem Index_single_append (c : Char) (a b : List Char) (h : c ∉ a) :
    Index (a ++ c :: b) [c] = some a.length := by
  induction a with
  | nil => simp [Index, List.isPrefixOf]
  | cons x t ih =>
    have hx : c ≠ x := fun hcx => h (hcx ▸ List.mem_cons_self _ _)
    have ht : c ∉ t := fun hct => h (List.mem_cons_of_mem _ hct)
    simp [Index, List.isPrefixOf, hx, ih ht]

/-- One pass of the loop on a string without the opening marker: the loop ends. -/
theorem resolveStep_no_marker (env : Env) (s : List Char)
    (h : Index s ['$', '\x7b'] = none) : resolveStep env s = Sum.inl s := by
  simp [resolveStep, h]

/-- One pass of the loop on a string that is one placeholder with a fallback. -/
theorem resolveStep_placeholder (env : Env) (N D : List Char) (hN1 : ':' ∉ N)
    (hN2 : '\x7d' ∉ N) (hD : '\x7d' ∉ D) :
    resolveStep env ('$' :: '\x7b' :: (N ++ ':' :: (D ++ ['\x7d']))) =
      Sum.inr (if Getenv env (String.mk N) = "" then D else (Getenv env (String.mk N)).data) := by
  have hstart : Index ('$' :: '\x7b' :: (N ++ ':' :: (D ++ ['\x7d']))) ['$', '\x7b'] = some 0 := by
    simp [Index, List.isPrefixOf]
  have hmem : '\x7d' ∉ '$' :: '\x7b' :: (N ++ ':' :: D) := by
    simp only [List.mem_cons, List.mem_append, not_or]
    exact ⟨by decide, by decide, hN2, by decide, hD⟩
  have hstop : Index ('$' :: '\x7b' :: (N ++ ':' :: (D ++ ['\x7d']))) ['\x7d'] =
      some (N.length + D.length + 3) := by
    have := Index_single_append '\x7d' ('$' :: '\x7b' :: (N ++ ':' :: D)) [] hmem
    simp only [List.cons_append, List.append_assoc, List.length_cons, List.length_append] at this
    rw [this, Option.some.injEq]
    omega
  have htake : (List.take (N.length + D.length + 3)
      ('$' :: '\x7b' :: (N ++ ':' :: (D ++ ['\x7d'])))).drop 2 = N ++ ':' :: D := by
    have : N.length + D.length + 3 = (N ++ ':' :: D).length + 2 := by
      simp only [List.length_append, List.length_cons]; omega
    rw [this]
    simp only [List.take_succ_cons, List.drop_succ_cons, List.drop_zero]
    have h2 : N ++ ':' :: (D ++ ['\x7d']) = (N ++ ':' :: D) ++ ['\x7d'] := by simp
    rw [h2, List.take_left']
    rfl
  have hdrop : List.drop (N.length + D.length + 3 + 1)
      ('$' :: '\x7b' :: (N ++ ':' :: (D ++ ['\x7d']))) = [] := by
    apply List.drop_eq_nil_of_le
    simp only [List.length_cons, List.length_append, List.length_nil]
    omega
  have hcolon : Index (N ++ ':' :: D) [':'] = some N.length := Index_single_append ':' N D hN1
  simp only [resolveStep, hstart, List.drop_zero, hstop, Nat.add_zero, Nat.zero_add, htake,
    hcolon, hdrop, List.take_zero, List.nil_append, List.append_nil]
  simp

/-- One pass of the loop on a string that is one placeholder without a fallback. -/
theorem resolveStep_placeholder_plain (env : Env) (N : List Char) (hN1 : ':' ∉ N)
    (hN2 : '\x7d' ∉ N) :
    resolveStep env ('$' :: '\x7b' :: (N ++ ['\x7d'])) =
      Sum.inr (if Getenv env (String.mk N) = "" then [] else (Getenv env (String.mk N)).data) := by
  have hstart : Index ('$' :: '\x7b' :: (N ++ ['\x7d'])) ['$', '\x7b'] = some 0 := by
    simp [Index, List.isPrefixOf]
  have hmem : '\x7d' ∉ '$' :: '\x7b' :: N := by
    simp only [List.mem_cons, not_or]
    exact ⟨by decide, by decide, hN2⟩
  have hstop : Index ('$' :: '\x7b' :: (N ++ ['\x7d'])) ['\x7d'] = some (N.length + 2) := by
    have := Index_single_append '\x7d' ('$' :: '\x7b' :: N) [] hmem
    simpa using this
  have htake : (List.take (N.length + 2) ('$' :: '\x7b' :: (N ++ ['\x7d']))).drop 2 = N := by
    simp only [List.take_succ_cons, List.drop_succ_cons, List.drop_zero]
    rw [List.take_left']
    rfl
  have hdrop : List.drop (N.length + 2 + 1) ('$' :: '\x7b' :: (N ++ ['\x7d'])) = [] := by
    apply List.drop_eq_nil_of_le
    simp only [List.length_cons, List.length_append, List.length_nil]
    omega
  have hcolon : Index N [':'] = none := Index_single_none ':' N hN1
  simp only [resolveStep, hstart, List.drop_zero, hstop, Nat.add_zero, htake, hcolon, hdrop,
    List.take_zero, List.nil_append, List.append_nil]

/-- C6. For a name without `:` and without a closing brace and a fallback `D` without a
closing brace, when the substituted text contains no opening marker: the placeholder of
the name with fallback `D` resolves to the value of the variable when it is set to a
non-empty string and to `D` when it is unset or set to the empty string; the placeholder
of the name alone resolves to the empty string when the variable is unset or empty.  The
loop returns after two passes, so every `fuel` of at least 2 gives the result. -/
theorem resolveEnvVarsInString_placeholder (env : Env) (fuel : Nat) (NAME D : String)
    (hN1 : ':' ∉ NAME.data) (hN2 : '\x7d' ∉ NAME.data) (hD : '\x7d' ∉ D.data) :
    (∀ val, env NAME = some val → val ≠ "" → Index val.data ['$', '\x7b'] = none →
      resolveEnvVarsInString env (fuel + 2) ("$\x7b" ++ NAME ++ ":" ++ D ++ "\x7d") = some val) ∧
    ((env NAME = none ∨ env NAME = some "") → Index D.data ['$', '\x7b'] = none →
      resolveEnvVarsInString env (fuel + 2) ("$\x7b" ++ NAME ++ ":" ++ D ++ "\x7d") = some D) ∧
    ((env NAME = none ∨ env NAME = some "") →
      resolveEnvVarsInString env (fuel + 2) ("$\x7b" ++ NAME ++ "\x7d") = some "") := by
  have hdata : ("$\x7b" ++ NAME ++ ":" ++ D ++ "\x7d").data =
      '$' :: '\x7b' :: (NAME.data ++ ':' :: (D.data ++ ['\x7d'])) := by
    simp [String.data_append]
  have hdata2 : ("$\x7b" ++ NAME ++ "\x7d").data = '$' :: '\x7b' :: (NAME.data ++ ['\x7d']) := by
    simp [String.data_append]
  have hmk : String.mk NAME.data = NAME := rfl
  have hunset : (env NAME = none ∨ env NAME = some "") → Getenv env NAME = "" := by
    intro h
    rcases h with h | h <;> simp [Getenv, h]
  refine ⟨?_, ?_, ?_⟩
  · intro val hval hne hsub
    have hget : Getenv env NAME = val := by simp [Getenv, hval]
    simp only [resolveEnvVarsInString, hdata, resolveLoop,
      resolveStep_placeholder env NAME.data D.data hN1 hN2 hD, hmk, hget, hne, if_false,
      resolveStep_no_marker env val.data hsub]
    rfl
  · intro hval hsub
    simp only [resolveEnvVarsInString, hdata, resolveLoop,
      resolveStep_placeholder env NAME.data D.data hN1 hN2 hD, hmk, hunset hval, if_true,
      resolveStep_no_marker env D.data hsub]
    rfl
  · intro hval
    have hnil : resolveStep env [] = Sum.inl [] := resolveStep_no_marker env [] (by simp [Index])
    simp only [resolveEnvVarsInString, hdata2, resolveLoop,
      resolveStep_placeholder_plain env NAME.data hN1 hN2, hmk, hunset hval, if_true, hnil]
    rfl

/-- C6, at concrete inputs: the placeholder of `PORT` with fallback `9090`, in an
environment where `PORT` is `8080` and in the empty environment. -/
theorem resolveEnvVarsInString_placeholder_witness :
    resolveEnvVarsInString (fun key => if key = "PORT" then some "8080" else none) 2
        ("$\x7b" ++ "PORT" ++ ":" ++ "9090" ++ "\x7d") = some "8080" ∧
    resolveEnvVarsInString noEnv 2 ("$\x7b" ++ "PORT" ++ ":" ++ "9090" ++ "\x7d") = some "9090" ∧
    resolveEnvVarsInString noEnv 2 ("$\x7b" ++ "PORT" ++ "\x7d") = some "" :=
  ⟨(resolveEnvVarsInString_placeholder (fun key => if key = "PORT" then some "8080" else none) 0
      "PORT" "9090" (by decide) (by decide) (by decide)).1 "8080" rfl (by decide) rfl,
   (resolveEnvVarsInString_placeholder noEnv 0 "PORT" "9090" (by decide) (by decide)
      (by decide)).2.1 (Or.inl rfl) rfl,
   (resolveEnvVarsInString_placeholder noEnv 0 "PORT" "9090" (by decide) (by decide)
      (by decide)).2.2 (Or.inl rfl)⟩

/-- The loop of `resolveEnvVarsInString` on the placeholder of `A`, when `A` is set to
that placeholder: each pass leaves the string as it was, so no number of passes ends it. -/
theorem resolveLoop_selfRef (fuel : Nat) :
    resolveLoop selfRefEnv fuel ['$', '\x7b', 'A', '\x7d'] = none := by
  induction fuel with
  | zero => rfl
  | succ n ih =>
    have hstep : resolveStep selfRefEnv ['$', '\x7b', 'A', '\x7d'] =
        Sum.inr ['$', '\x7b', 'A', '\x7d'] := by rfl
    simp only [resolveLoop, hstep, ih]

/-- C7 (evaluation at the failing input). In an environment where `A` is set to the
placeholder of `A`, `resolveEnvVarsInString` on that placeholder is still running after
any number of passes, and so is `Parse` of the tree `name: ` that placeholder into a
string field when environment resolution is on (the options of `New`). -/
theorem resolveEnvVarsInString_selfRef_never_returns (fuel : Nat) :
    resolveEnvVarsInString selfRefEnv fuel "$\x7bA\x7d" = none ∧
    Parse sampleLib selfRefEnv fuel (LoadData (New []) [("name", Dyn.str "$\x7bA\x7d")])
        (Target.ptr (Ty.struct [StructField.mk "Name" [("meta", "name")] false true Ty.string])
          (Val.struct [Val.str ""])) = none := by
  have h1 : resolveEnvVarsInString selfRefEnv fuel "$\x7bA\x7d" = none := by
    have hd : ("$\x7bA\x7d" : String).data = ['$', '\x7b', 'A', '\x7d'] := rfl
    simp [resolveEnvVarsInString, hd, resolveLoop_selfRef]
  refine ⟨h1, ?_⟩
  have h2 : resolveEnvVars selfRefEnv fuel (LoadData (New []) [("name", Dyn.str "$\x7bA\x7d")])
      (Dyn.str "$\x7bA\x7d") = none := by
    rw [resolveEnvVars, h1]
    rfl
  have hlook : getValueFromMap sampleLib (LoadData (New []) [("name", Dyn.str "$\x7bA\x7d")])
      [("name", Dyn.str "$\x7bA\x7d")] "name" = some (Dyn.str "$\x7bA\x7d") := rfl
  have h3 : ∀ set cur opts, parseField sampleLib selfRefEnv fuel
      (LoadData (New []) [("name", Dyn.str "$\x7bA\x7d")]) set cur "name" opts
      [("name", Dyn.str "$\x7bA\x7d")] = none := by
    intro set cur opts
    have hu : (LoadData (New []) [("name", Dyn.str "$\x7bA\x7d")]).options.UseEnv = true := rfl
    simp [parseField, hlook, hu, h2]
  have h4 : parseStructField sampleLib selfRefEnv fuel
      (LoadData (New []) [("name", Dyn.str "$\x7bA\x7d")])
      (StructField.mk "Name" [("meta", "name")] false true Ty.string) (Val.str "")
      [("name", Dyn.str "$\x7bA\x7d")] = none := by
    rw [parseStructField]
    have hn : (parseTag sampleLib (tagGet [("meta", "name")]
        (LoadData (New []) [("name", Dyn.str "$\x7bA\x7d")]).options.TagName)).1 = "name" := rfl
    have ht : tagGet [("meta", "name")]
        (LoadData (New []) [("name", Dyn.str "$\x7bA\x7d")]).options.TagName ≠ "-" := by decide
    have hif : (if "name" = "" then "Name" else "name") = "name" := rfl
    simp [ht, hn, hif, h3]
  simp only [Parse, structVals, LoadData]
  rw [parseStruct_cons]
  simp only [LoadData] at h4
  simp only [List.headD_cons, h4, Res.mapVal]

/-- `strings.HasPrefix` with the one-character text of an opening brace. -/
theorem HasPrefix_brace (v : String) :
    HasPrefix v "\x7b" = true ↔ v.data.head? = some '\x7b' := by
  have h : ("\x7b" : String).data = ['\x7b'] := rfl
  unfold HasPrefix
  rw [h]
  cases v.data with
  | nil => simp [List.isPrefixOf]
  | cons c t =>
    simp only [List.isPrefixOf, Bool.and_true, beq_iff_eq, List.head?_cons, Option.some.injEq]
    exact eq_comm

/-- `strings.HasSuffix` with the one-character text of a closing brace. -/
theorem HasSuffix_brace (v : String) :
    HasSuffix v "\x7d" = true ↔ v.data.getLast? = some '\x7d' := by
  have h : ("\x7d" : String).data = ['\x7d'] := rfl
  unfold HasSuffix
  rw [h, ← List.head?_reverse]
  cases v.data.reverse with
  | nil => simp [List.isPrefixOf]
  | cons c t =>
    simp only [List.reverse_cons, List.reverse_nil, List.nil_append, List.isPrefixOf,
      Bool.and_true, beq_iff_eq, List.head?_cons, Option.some.injEq]
    exact eq_comm

/-- The text between the braces, as `parseDefaultValue` cuts it out. -/
theorem trim_braces (v : String) (h1 : v.data.head? = some '\x7b')
    (h2 : v.data.getLast? = some '\x7d') :
    TrimPrefix (TrimSuffix v "\x7d") "\x7b" = String.mk (v.data.drop 1).dropLast := by
  have hs : HasSuffix v "\x7d" = true := (HasSuffix_brace v).2 h2
  have hd : ("\x7d" : String).data.length = 1 := rfl
  have hb : ("\x7b" : String).data.length = 1 := rfl
  have hts : TrimSuffix v "\x7d" = String.mk v.data.dropLast := by
    simp [TrimSuffix, hs, hd, List.dropLast_eq_take]
  obtain ⟨d⟩ := v
  cases d with
  | nil => simp at h1
  | cons c t =>
    simp only [List.head?_cons, Option.some.injEq] at h1
    subst h1
    cases t with
    | nil => simp at h2
    | cons c2 t2 =>
      have hp : HasPrefix (String.mk ('\x7b' :: (c2 :: t2).dropLast)) "\x7b" = true :=
        (HasPrefix_brace _).2 rfl
      rw [hts]
      simp only [List.dropLast_cons₂] at hp ⊢
      simp [TrimPrefix, hp, hb]

/-- C13. For every text `v`, `parseDefaultValue` gives the value the specification's
grammar gives: the sequence of the pieces between `;` of the text between the braces
when `v` starts with an opening and ends with a closing brace, else the base-10 64-bit
integer, else the float, else the boolean, else the text itself.  In particular the
texts `1` and `0` become the integers 1 and 0, whatever the float parser does. -/
theorem parseDefaultValue_refines_spec (K : Lib) (v : String) :
    parseDefaultValue K v = parseDefaultValueSpec K v ∧
    parseDefaultValue K "1" = Dyn.int 1 ∧ parseDefaultValue K "0" = Dyn.int 0 := by
  refine ⟨?_, rfl, rfl⟩
  unfold parseDefaultValue parseDefaultValueSpec
  by_cases h1 : v.data.head? = some '\x7b'
  · by_cases h2 : v.data.getLast? = some '\x7d'
    · simp [(HasPrefix_brace v).2 h1, (HasSuffix_brace v).2 h2, h1, h2, trim_braces v h1 h2]
    · have hs : HasSuffix v "\x7d" = false := by
        cases h : HasSuffix v "\x7d" with
        | false => rfl
        | true => exact absurd ((HasSuffix_brace v).1 h) h2
      simp only [hs, Bool.and_false, h2, and_false, if_false]
      cases ParseInt v <;> cases K.ParseFloat v <;> cases ParseBool v <;> simp
  · have hp : HasPrefix v "\x7b" = false := by
      cases h : HasPrefix v "\x7b" with
      | false => rfl
      | true => exact absurd ((HasPrefix_brace v).1 h) h1
    simp only [hp, Bool.false_and, h1, false_and, if_false]
    cases ParseInt v <;> cases K.ParseFloat v <;> cases ParseBool v <;> simp

/-- The value `SetInt` stores lies in the range of the width and differs from `n` by a
multiple of `2 ^ bits`. -/
theorem wrapInt_spec (bits : Nat) (n : Int) (hw : 0 < bits) :
    - (2 : Int) ^ (bits - 1) ≤ wrapInt bits n ∧ wrapInt bits n < 2 ^ (bits - 1) ∧
    (2 : Int) ^ bits ∣ n - wrapInt bits n := by
  have hpow : (2 : Int) ^ bits = 2 * 2 ^ (bits - 1) := by
    obtain ⟨k, rfl⟩ : ∃ k, bits = k + 1 := ⟨bits - 1, by omega⟩
    simp [pow_succ, mul_comm]
  have hpos : (0 : Int) < 2 ^ bits := by positivity
  have h0 := Int.emod_nonneg (n + 2 ^ (bits - 1)) (ne_of_gt hpos)
  have h1 := Int.emod_lt_of_pos (n + 2 ^ (bits - 1)) hpos
  unfold wrapInt
  refine ⟨by omega, by omega, ?_⟩
  have h2 := Int.emod_add_ediv (n + 2 ^ (bits - 1)) (2 ^ bits)
  refine ⟨(n + 2 ^ (bits - 1)) / 2 ^ bits, ?_⟩
  linarith

/-- C20. On a signed integer field of `w` bits (`w` is 8, 16 or 32; any positive width
will do) `setField` coerces the value to a 64-bit integer `n`, checks the declared range
on `n`, and then narrows: without a declared range it returns no error and stores `n`
reduced modulo `2 ^ w` into the range of the width, which differs from `n` when `n` is
outside that range; with a declared range the check is made on `n`, not on the stored
value. -/
theorem setField_int_narrows (K : Lib) (env : Env) (fuel : Nat) (c : Config) (w : Nat)
    (cur : Val) (n : Int) (opts : tagOptions) (hw : 0 < w)
    (hc : K.ToInt64E (Dyn.int n) = some n) :
    (opts.hasRange = false →
      setField K env fuel c (Ty.int w) cur (Dyn.int n) opts =
        some (Val.int (wrapInt w n), none)) ∧
    (- (2 : Int) ^ (w - 1) ≤ wrapInt w n ∧ wrapInt w n < 2 ^ (w - 1) ∧
      (2 : Int) ^ w ∣ n - wrapInt w n) ∧
    ((n < - (2 : Int) ^ (w - 1) ∨ 2 ^ (w - 1) ≤ n) → wrapInt w n ≠ n) ∧
    (opts.hasRange = true →
      setField K env fuel c (Ty.int w) cur (Dyn.int n) opts =
        if opts.rangeMin ≤ n ∧ n ≤ opts.rangeMax then some (Val.int (wrapInt w n), none)
        else some (cur, some (Err.range opts.rangeMin opts.rangeMax))) := by
  have hs := wrapInt_spec w n hw
  refine ⟨?_, hs, ?_, ?_⟩
  · intro hr
    rw [setField]
    simp [Dyn.isNil, hc, validateRange, hr]
  · intro hout heq
    rw [heq] at hs
    omega
  · intro hr
    rw [setField]
    simp only [Dyn.isNil, hc, validateRange, hr]
    by_cases h : opts.rangeMin ≤ n ∧ n ≤ opts.rangeMax
    · have h1 : ¬ (n < opts.rangeMin ∨ n > opts.rangeMax) := by omega
      simp [h, h1]
    · have h1 : n < opts.rangeMin ∨ n > opts.rangeMax := by omega
      simp [h, h1]

/-- C20, at concrete inputs: 300 into an `int8` field is stored as 44 without error;
with the range `[1:1000]` declared, 300 passes the check and 44 is stored. -/
theorem setField_int_narrows_witness :
    ((({} : tagOptions).hasRange = false →
        setField sampleLib noEnv 1 (New []) (Ty.int 8) (Val.int 0) (Dyn.int 300) {} =
          some (Val.int (wrapInt 8 300), none)) ∧
      (- (2 : Int) ^ (8 - 1) ≤ wrapInt 8 300 ∧ wrapInt 8 300 < 2 ^ (8 - 1) ∧
        (2 : Int) ^ 8 ∣ 300 - wrapInt 8 300) ∧
      (((300 : Int) < - (2 : Int) ^ (8 - 1) ∨ 2 ^ (8 - 1) ≤ (300 : Int)) →
        wrapInt 8 300 ≠ 300) ∧
      (({} : tagOptions).hasRange = true →
        setField sampleLib noEnv 1 (New []) (Ty.int 8) (Val.int 0) (Dyn.int 300) {} =
          if ({} : tagOptions).rangeMin ≤ 300 ∧ 300 ≤ ({} : tagOptions).rangeMax
          then some (Val.int (wrapInt 8 300), none)
          else some (Val.int 0, some (Err.range ({} : tagOptions).rangeMin
            ({} : tagOptions).rangeMax)))) ∧
    wrapInt 8 300 = 44 ∧
    setField sampleLib noEnv 1 (New []) (Ty.int 8) (Val.int 0) (Dyn.int 300)
        (parseTag sampleLib "n,range=[1:1000]").2 = some (Val.int 44, none) :=
  ⟨setField_int_narrows sampleLib noEnv 1 (New []) 8 (Val.int 0) 300 {} (by decide) rfl,
    by decide, rfl⟩

/-- C12 (evaluation at the failing input). `resolveEnvVars` returns a `[]string` as it
is, whatever its elements; so with `A` set to `x` and environment resolution on, the
default of the annotation `tags,default=` brace-form `$A-placeholder;b` reaches a
string-slice field with its placeholder unresolved, although `resolveEnvVarsInString`
turns that element into `x`, and although the same two strings given in the tree as a
`[]any` are resolved element by element. -/
theorem Parse_sequence_default_not_resolved :
    (∀ (env : Env) (fuel : Nat) (c : Config) (xs : List String),
      resolveEnvVars env fuel c (Dyn.strs xs) = some (Dyn.strs xs)) ∧
    parseDefaultValue sampleLib "\x7b$\x7bA\x7d;b\x7d" = Dyn.strs ["$\x7bA\x7d", "b"] ∧
    resolveEnvVarsInString envAx 2 "$\x7bA\x7d" = some "x" ∧
    (New []).options.UseEnv = true ∧
    Parse sampleLib envAx 2 (LoadData (New []) [])
        (Target.ptr (Ty.struct [StructField.mk "Tags"
          [("meta", "tags,default=\x7b$\x7bA\x7d;b\x7d")] false true (Ty.slice Ty.string)])
          (Val.struct [Val.slice none])) =
      some (Target.ptr (Ty.struct [StructField.mk "Tags"
          [("meta", "tags,default=\x7b$\x7bA\x7d;b\x7d")] false true (Ty.slice Ty.string)])
          (Val.struct [Val.slice (some [Val.str "$\x7bA\x7d", Val.str "b"])]), none) ∧
    Parse sampleLib envAx 2
        (LoadData (New []) [("tags", Dyn.seq [Dyn.str "$\x7bA\x7d", Dyn.str "b"])])
        (Target.ptr (Ty.struct [StructField.mk "Tags"
          [("meta", "tags,default=\x7b$\x7bA\x7d;b\x7d")] false true (Ty.slice Ty.string)])
          (Val.struct [Val.slice none])) =
      some (Target.ptr (Ty.struct [StructField.mk "Tags"
          [("meta", "tags,default=\x7b$\x7bA\x7d;b\x7d")] false true (Ty.slice Ty.string)])
          (Val.struct [Val.slice (some [Val.str "x", Val.str "b"])]), none) := by
  refine ⟨?_, rfl, rfl, rfl, rfl, rfl⟩
  intro env fuel c xs
  rw [resolveEnvVars] <;> intro v hv <;> cases hv

/-- C17 (evaluation at the failing input). The tree with the two keys `Foo` and `foo`,
enumerated in one order and in the other, normalized and bound into the field `Foo`:
the field gets the value of whichever key is enumerated last.  And a map field whose
source holds two values that do not coerce returns the error of whichever is enumerated
first. -/
theorem Load_depends_on_enumeration_order :
    Load sampleLib noEnv 1 [("Foo", Dyn.int 1), ("foo", Dyn.int 2)]
        (Target.ptr (Ty.struct [StructField.mk "Foo" [] false true (Ty.int 64)])
          (Val.struct [Val.int 0])) [] =
      some (Target.ptr (Ty.struct [StructField.mk "Foo" [] false true (Ty.int 64)])
          (Val.struct [Val.int 2]), none) ∧
    Load sampleLib noEnv 1 [("foo", Dyn.int 2), ("Foo", Dyn.int 1)]
        (Target.ptr (Ty.struct [StructField.mk "Foo" [] false true (Ty.int 64)])
          (Val.struct [Val.int 0])) [] =
      some (Target.ptr (Ty.struct [StructField.mk "Foo" [] false true (Ty.int 64)])
          (Val.struct [Val.int 1]), none) ∧
    Load sampleLib noEnv 1 [("m", Dyn.map [("a", Dyn.str "x"), ("b", Dyn.str "y")])]
        (Target.ptr (Ty.struct [StructField.mk "M" [] false true (Ty.map (Ty.int 64))])
          (Val.struct [Val.map none])) [] =
      some (Target.ptr (Ty.struct [StructField.mk "M" [] false true (Ty.map (Ty.int 64))])
          (Val.struct [Val.map (some [])]),
        some (Err.parseConfig (Err.field "M" (Err.cast "int64" (Dyn.str "x"))))) ∧
    Load sampleLib noEnv 1 [("m", Dyn.map [("b", Dyn.str "y"), ("a", Dyn.str "x")])]
        (Target.ptr (Ty.struct [StructField.mk "M" [] false true (Ty.map (Ty.int 64))])
          (Val.struct [Val.map none])) [] =
      some (Target.ptr (Ty.struct [StructField.mk "M" [] false true (Ty.map (Ty.int 64))])
          (Val.struct [Val.map (some [])]),
        some (Err.parseConfig (Err.field "M" (Err.cast "int64" (Dyn.str "y"))))) :=
  ⟨rfl, rfl, rfl, rfl⟩

/-- C19 (evaluation at the failing input). With `A` set to brace-`B`-brace, the string
made of `p`, a dollar sign, followed by the placeholder of `A`: `p` contains no opening
marker and the token no closing brace, yet after the first substitution the dollar sign
of `p` and the value form a new placeholder at offset 0, the second pass replaces it,
and the result, the empty string, does not start with `p`. -/
theorem resolveEnvVarsInString_alters_earlier_text :
    Index ("$" : String).data ['$', '\x7b'] = none ∧
    '\x7d' ∉ ("A" : String).data ∧
    resolveStep braceEnv ("$" ++ "$\x7b" ++ "A" ++ "\x7d" ++ "" : String).data =
      Sum.inr ("$\x7bB\x7d" : String).data ∧
    resolveEnvVarsInString braceEnv 3 ("$" ++ "$\x7b" ++ "A" ++ "\x7d" ++ "") = some "" ∧
    ¬ (("$" : String).data <+: ("" : String).data) := by
  refine ⟨rfl, by decide, rfl, rfl, ?_⟩
  intro h
  have := h.length_le
  simp at this

/-- C15. If `parseStruct` fails, there is an index `k` of the structure such that: the
loop's pass for every field before `k` returned no error and the field holds the value
that pass bound (nothing is rolled back); the pass for field `k` returned the error
`parseStruct` returns, so `k` is the least index whose processing fails; and every
field after `k` holds what it held before the call. -/
theorem parseStruct_failure_frame (K : Lib) (env : Env) (fuel : Nat) (c : Config)
    (fields : List StructField) (vals : List Val) (m : List (String × Dyn)) (vs : List Val)
    (e : Err) (h : parseStruct K env fuel c fields vals m = some (vs, some e)) :
    ∃ k, k < fields.length ∧
      (∀ i, i < k → ∃ f cur v, fields[i]? = some f ∧ (fieldVals fields vals)[i]? = some cur ∧
        parseStructField K env fuel c f cur m = some (v, none) ∧ vs[i]? = some v) ∧
      (∃ f cur v, fields[k]? = some f ∧ (fieldVals fields vals)[k]? = some cur ∧
        parseStructField K env fuel c f cur m = some (v, some e) ∧ vs[k]? = some v) ∧
      (∀ i, k < i → vs[i]? = (fieldVals fields vals)[i]?) := by
  induction fields generalizing vals vs with
  | nil =>
    rw [parseStruct] at h
    simp at h
  | cons f fs ih =>
    rw [parseStruct_cons] at h
    split at h
    · simp at h
    · rename_i v e1 hf
      simp only [Option.some.injEq, Prod.mk.injEq] at h
      obtain ⟨hvs, he⟩ := h
      subst hvs he
      refine ⟨0, by simp, ?_, ?_, ?_⟩
      · intro i hi
        omega
      · exact ⟨f, vals.headD (zero f.ty), v, by simp, by simp [fieldVals], hf, by simp⟩
      · intro i hi
        obtain ⟨j, rfl⟩ : ∃ j, i = j + 1 := ⟨i - 1, by omega⟩
        simp [fieldVals]
    · rename_i v hf
      cases hrest : parseStruct K env fuel c fs vals.tail m with
      | none => simp [hrest, Res.mapVal] at h
      | some r2 =>
        obtain ⟨vs2, oe2⟩ := r2
        simp only [hrest, Res.mapVal, Option.some.injEq, Prod.mk.injEq] at h
        obtain ⟨hvs, he⟩ := h
        subst hvs he
        obtain ⟨k, hk, hbefore, hat, hafter⟩ := ih vals.tail vs2 hrest
        refine ⟨k + 1, by simp [hk], ?_, ?_, ?_⟩
        · intro i hi
          cases i with
          | zero =>
            exact ⟨f, vals.headD (zero f.ty), v, by simp, by simp [fieldVals], hf, by simp⟩
          | succ j =>
            obtain ⟨g, cur, w, h1, h2, h3, h4⟩ := hbefore j (by omega)
            exact ⟨g, cur, w, by simpa using h1, by simpa [fieldVals] using h2, h3,
              by simpa using h4⟩
        · obtain ⟨g, cur, w, h1, h2, h3, h4⟩ := hat
          exact ⟨g, cur, w, by simpa using h1, by simpa [fieldVals] using h2, h3,
            by simpa using h4⟩
        · intro i hi
          obtain ⟨j, rfl⟩ : ∃ j, i = j + 1 := ⟨i - 1, by omega⟩
          have := hafter j (by omega)
          simpa [fieldVals] using this

/-- C15, at concrete inputs: three `int` fields that held 7, 8, 9; the tree gives `a` the
value 1 and nothing to the required `b`.  The bind fails at index 1, `A` keeps the bound
value 1, `C` keeps 9. -/
theorem parseStruct_failure_frame_witness :
    ∃ k, k < [StructField.mk "A" [("meta", "a")] false true (Ty.int 64),
          StructField.mk "B" [("meta", "b")] false true (Ty.int 64),
          StructField.mk "C" [("meta", "c")] false true (Ty.int 64)].length ∧
      (∀ i, i < k → ∃ f cur v,
        [StructField.mk "A" [("meta", "a")] false true (Ty.int 64),
          StructField.mk "B" [("meta", "b")] false true (Ty.int 64),
          StructField.mk "C" [("meta", "c")] false true (Ty.int 64)][i]? = some f ∧
        (fieldVals [StructField.mk "A" [("meta", "a")] false true (Ty.int 64),
          StructField.mk "B" [("meta", "b")] false true (Ty.int 64),
          StructField.mk "C" [("meta", "c")] false true (Ty.int 64)]
          [Val.int 7, Val.int 8, Val.int 9])[i]? = some cur ∧
        parseStructField sampleLib noEnv 1 (New []) f cur [("a", Dyn.int 1)] = some (v, none) ∧
        [Val.int 1, Val.int 8, Val.int 9][i]? = some v) ∧
      (∃ f cur v,
        [StructField.mk "A" [("meta", "a")] false true (Ty.int 64),
          StructField.mk "B" [("meta", "b")] false true (Ty.int 64),
          StructField.mk "C" [("meta", "c")] false true (Ty.int 64)][k]? = some f ∧
        (fieldVals [StructField.mk "A" [("meta", "a")] false true (Ty.int 64),
          StructField.mk "B" [("meta", "b")] false true (Ty.int 64),
          StructField.mk "C" [("meta", "c")] false true (Ty.int 64)]
          [Val.int 7, Val.int 8, Val.int 9])[k]? = some cur ∧
        parseStructField sampleLib noEnv 1 (New []) f cur [("a", Dyn.int 1)] =
          some (v, some (Err.field "B" Err.requiredMissing)) ∧
        [Val.int 1, Val.int 8, Val.int 9][k]? = some v) ∧
      (∀ i, k < i → [Val.int 1, Val.int 8, Val.int 9][i]? =
        (fieldVals [StructField.mk "A" [("meta", "a")] false true (Ty.int 64),
          StructField.mk "B" [("meta", "b")] false true (Ty.int 64),
          StructField.mk "C" [("meta", "c")] false true (Ty.int 64)]
          [Val.int 7, Val.int 8, Val.int 9])[i]?) :=
  parseStruct_failure_frame sampleLib noEnv 1 (New [])
    [StructField.mk "A" [("meta", "a")] false true (Ty.int 64),
      StructField.mk "B" [("meta", "b")] false true (Ty.int 64),
      StructField.mk "C" [("meta", "c")] false true (Ty.int 64)]
    [Val.int 7, Val.int 8, Val.int 9] [("a", Dyn.int 1)] [Val.int 1, Val.int 8, Val.int 9]
    (Err.field "B" Err.requiredMissing) rfl

/-- The pass of the loop of `parseStruct` for a leaf field that `parseField` binds
without error. -/
theorem parseStructField_leaf_ok (K : Lib) (env : Env) (fuel : Nat) (c : Config)
    (name : String) (tag : List (String × String)) (anonymous : Bool) (ty : Ty) (cur v : Val)
    (curMap : List (String × Dyn))
    (hdash : tagGet tag c.options.TagName ≠ "-")
    (hleaf : ty.isStructOrPtrToStruct = false)
    (hok : parseField K env fuel c (fun v o => setField K env fuel c ty cur v o) cur
      (if (parseTag K (tagGet tag c.options.TagName)).1 = "" then name
        else (parseTag K (tagGet tag c.options.TagName)).1)
      (parseTag K (tagGet tag c.options.TagName)).2 curMap = some (v, none)) :
    parseStructField K env fuel c (StructField.mk name tag anonymous true ty) cur curMap =
      some (v, none) := by
  rw [parseStructField]
  simp only [hdash]
  cases ty with
  | struct sub => simp [Ty.isStructOrPtrToStruct] at hleaf
  | ptr elem =>
    cases elem with
    | struct sub => simp [Ty.isStructOrPtrToStruct] at hleaf
    | _ => simp [hok]
  | _ => simp [hok]

/-- A structure type whose bound leaf fields are all optional or declare an accepted
default binds against the empty mapping without error. -/
theorem parseStruct_empty_scope_ok (K : Lib) (env : Env) (fuel : Nat) (c : Config)
    (fields : List StructField) (h : DefaultsCover K env fuel c fields) :
    ∀ vals, ∃ vs, parseStruct K env fuel c fields vals [] = some (vs, none) := by
  have hnest : ∀ key, (getNestedMap K c [] key).getD [] = [] := by
    intro key
    simp [getNestedMap]
  have hscope : ∀ (anonymous : Bool) (key : String),
      (if anonymous then ([] : List (String × Dyn)) else (getNestedMap K c [] key).getD []) =
        [] := by
    intro anonymous key
    cases anonymous <;> simp [hnest]
  have hcons : ∀ (f : StructField) (fs : List StructField) (vals : List Val) (v : Val),
      parseStructField K env fuel c f (vals.headD (zero f.ty)) [] = some (v, none) →
      (∀ vals, ∃ vs, parseStruct K env fuel c fs vals [] = some (vs, none)) →
      ∃ vs, parseStruct K env fuel c (f :: fs) vals [] = some (vs, none) := by
    intro f fs vals v hf hfs
    obtain ⟨vs, hvs⟩ := hfs vals.tail
    refine ⟨v :: vs, ?_⟩
    rw [parseStruct_cons, hf]
    simp [hvs, Res.mapVal]
  induction h with
  | nil =>
    intro vals
    exact ⟨[], by rw [parseStruct]⟩
  | notSettable name tag anonymous ty fs _ ih =>
    intro vals
    refine hcons _ fs vals (vals.headD (zero ty)) ?_ ih
    rw [parseStructField]
    simp [StructField.ty]
  | dash name tag anonymous canSet ty fs hd _ ih =>
    intro vals
    refine hcons _ fs vals (vals.headD (zero ty)) ?_ ih
    rw [parseStructField]
    simp [hd, StructField.ty]
  | nested name tag anonymous sub fs _ _ ihsub ih =>
    intro vals
    by_cases hd : tagGet tag c.options.TagName = "-"
    · refine hcons _ fs vals (vals.headD (zero (Ty.struct sub))) ?_ ih
      rw [parseStructField]
      simp [hd, StructField.ty]
    · obtain ⟨vs, hvs⟩ := ihsub (structVals (vals.head?.getD (zero (Ty.struct sub))))
      refine hcons _ fs vals (Val.struct vs) ?_ ih
      rw [parseStructField]
      simp only [hd, hscope, StructField.ty]
      simp [hvs, Res.mapVal]
  | nestedPtr name tag anonymous sub fs _ _ ihsub ih =>
    intro vals
    by_cases hd : tagGet tag c.options.TagName = "-"
    · refine hcons _ fs vals (vals.headD (zero (Ty.ptr (Ty.struct sub)))) ?_ ih
      rw [parseStructField]
      simp [hd, StructField.ty]
    · obtain ⟨vs, hvs⟩ := ihsub (ptrStructVals (vals.head?.getD (zero (Ty.ptr (Ty.struct sub)))))
      refine hcons _ fs vals (Val.ptr (some (Val.struct vs))) ?_ ih
      rw [parseStructField]
      simp only [hd, hscope, StructField.ty]
      simp [hvs, Res.mapVal]
  | optional name tag anonymous ty fs hleaf hopt _ ih =>
    intro vals
    by_cases hd : tagGet tag c.options.TagName = "-"
    · refine hcons _ fs vals (vals.headD (zero ty)) ?_ ih
      rw [parseStructField]
      simp [hd, StructField.ty]
    · refine hcons _ fs vals (vals.headD (zero ty)) ?_ ih
      refine parseStructField_leaf_ok K env fuel c name tag anonymous ty
        (vals.headD (zero ty)) _ [] hd hleaf ?_
      simp [parseField, getValueFromMap, hopt]
  | default name tag anonymous ty fs hleaf hdef hacc _ ih =>
    intro vals
    by_cases hd : tagGet tag c.options.TagName = "-"
    · refine hcons _ fs vals (vals.headD (zero ty)) ?_ ih
      rw [parseStructField]
      simp [hd, StructField.ty]
    · by_cases hopt : (parseTag K (tagGet tag c.options.TagName)).2.optional = true
      · refine hcons _ fs vals (vals.headD (zero ty)) ?_ ih
        refine parseStructField_leaf_ok K env fuel c name tag anonymous ty
          (vals.headD (zero ty)) _ [] hd hleaf ?_
        simp [parseField, getValueFromMap, hopt]
      · obtain ⟨v, hv⟩ := hacc (vals.headD (zero ty))
        refine hcons _ fs vals v ?_ ih
        refine parseStructField_leaf_ok K env fuel c name tag anonymous ty
          (vals.headD (zero ty)) _ [] hd hleaf ?_
        simp only [parseField, getValueFromMap, List.lookup_nil, hdef, hopt]
        cases hu : c.options.UseEnv
        · simpa [hu] using hv
        · simp only [hu, if_true] at hv ⊢
          cases hr : resolveEnvVars env fuel c
              (parseTag K (tagGet tag c.options.TagName)).2.defaultValue with
          | none => simp [hr] at hv
          | some r => simpa [hr] using hv

/-- C16 (counterexample). The key `server` of a non-anonymous structure field is absent;
the only leaf field of the nested structure declares a default, 5, but also the range
`[10:20]`: the nested structure is bound against the empty mapping, the default is taken
and refused by the range check, and the bind fails. -/
theorem parseStruct_absent_nested_default_refused :
    (parseTag sampleLib "port,default=5,range=[10:20]").2.hasDefault = true ∧
    parseStruct sampleLib noEnv 1 (New [])
        [StructField.mk "Server" [("meta", "server")] false true
          (Ty.struct [StructField.mk "Port" [("meta", "port,default=5,range=[10:20]")] false
            true (Ty.int 64)])]
        [Val.struct [Val.int 0]] [] =
      some ([Val.struct [Val.int 0]], some (Err.field "Port" (Err.range 10 20))) :=
  ⟨rfl, rfl⟩

/-- C16 (amended). For a non-anonymous structure field whose key (lower-cased when
`IgnoreCase` is on) is absent from the scope, `parseStruct` binds the nested structure
against the empty mapping; and that bind returns no error whenever every leaf field the
nested structure binds, at any depth, is optional or declares a default that its field
accepts (`DefaultsCover`). -/
theorem parseStructField_absent_nested (K : Lib) (env : Env) (fuel : Nat) (c : Config)
    (name : String) (tag : List (String × String)) (sub : List StructField) (cur : Val)
    (curMap : List (String × Dyn))
    (hdash : tagGet tag c.options.TagName ≠ "-")
    (habsent : curMap.lookup
      (if c.options.IgnoreCase then
        K.ToLower (if (parseTag K (tagGet tag c.options.TagName)).1 = "" then name
          else (parseTag K (tagGet tag c.options.TagName)).1)
      else (if (parseTag K (tagGet tag c.options.TagName)).1 = "" then name
          else (parseTag K (tagGet tag c.options.TagName)).1)) = none)
    (hcover : DefaultsCover K env fuel c sub) :
    parseStructField K env fuel c (StructField.mk name tag false true (Ty.struct sub)) cur
        curMap =
      Res.mapVal Val.struct (parseStruct K env fuel c sub (structVals cur) []) ∧
    ∃ vs, parseStructField K env fuel c (StructField.mk name tag false true (Ty.struct sub))
      cur curMap = some (Val.struct vs, none) := by
  have h1 : parseStructField K env fuel c (StructField.mk name tag false true (Ty.struct sub))
      cur curMap = Res.mapVal Val.struct (parseStruct K env fuel c sub (structVals cur) []) := by
    rw [parseStructField]
    simp [hdash, getNestedMap, habsent]
  obtain ⟨vs, hvs⟩ := parseStruct_empty_scope_ok K env fuel c sub hcover (structVals cur)
  exact ⟨h1, vs, by rw [h1, hvs]; rfl⟩

/-- C16 (amended), at concrete inputs: the key `server` is absent; the nested structure
has an optional `Host` and a `Port` with default 80, and is bound to `Host` empty and
`Port` 80. -/
theorem parseStructField_absent_nested_witness :
    parseStructField sampleLib noEnv 1 (New [])
        (StructField.mk "Server" [("meta", "server")] false true
          (Ty.struct [StructField.mk "Host" [("meta", "host,optional")] false true Ty.string,
            StructField.mk "Port" [("meta", "port,default=80")] false true (Ty.int 64)]))
        (Val.struct []) [("name", Dyn.str "x")] =
      Res.mapVal Val.struct (parseStruct sampleLib noEnv 1 (New [])
        [StructField.mk "Host" [("meta", "host,optional")] false true Ty.string,
          StructField.mk "Port" [("meta", "port,default=80")] false true (Ty.int 64)]
        (structVals (Val.struct [])) []) ∧
    ∃ vs, parseStructField sampleLib noEnv 1 (New [])
        (StructField.mk "Server" [("meta", "server")] false true
          (Ty.struct [StructField.mk "Host" [("meta", "host,optional")] false true Ty.string,
            StructField.mk "Port" [("meta", "port,default=80")] false true (Ty.int 64)]))
        (Val.struct []) [("name", Dyn.str "x")] = some (Val.struct vs, none) :=
  parseStructField_absent_nested sampleLib noEnv 1 (New []) "Server" [("meta", "server")]
    [StructField.mk "Host" [("meta", "host,optional")] false true Ty.string,
      StructField.mk "Port" [("meta", "port,default=80")] false true (Ty.int 64)]
    (Val.struct []) [("name", Dyn.str "x")] (by decide) rfl
    (DefaultsCover.optional "Host" [("meta", "host,optional")] false Ty.string _ rfl rfl
      (DefaultsCover.default "Port" [("meta", "port,default=80")] false (Ty.int 64) _ rfl rfl
        (fun _ => ⟨Val.int 80, rfl⟩) DefaultsCover.nil))

/-- Unfolding of the loop of `buildCaseInsensitiveMap` at its first entry. -/
theorem buildCaseInsensitiveLoop_cons (K : Lib) (key : String) (val : Dyn)
    (rest acc : List (String × Dyn)) :
    buildCaseInsensitiveLoop K ((key, val) :: rest) acc =
      buildCaseInsensitiveLoop K rest
        (mapSet acc (K.ToLower key) (buildCaseInsensitiveVal K val)) := by
  rw [buildCaseInsensitiveLoop]

/-- The assignment `m[k] = v` keeps the keys lowered. -/
theorem mapSet_keysLowered (K : Lib) (acc : List (String × Dyn)) (k : String) (v : Dyn)
    (hacc : KeysLowered K acc) (hk : ∃ k0, k = K.ToLower k0) (hv : ValKeysLowered K v) :
    KeysLowered K (mapSet acc k v) := by
  induction acc with
  | nil => simp [mapSet, KeysLowered, hk, hv]
  | cons kv rest ih =>
    obtain ⟨k1, v1⟩ := kv
    simp only [KeysLowered] at hacc
    obtain ⟨h1, h2, h3⟩ := hacc
    simp only [mapSet]
    by_cases hkk : k1 = k
    · simp only [hkk, if_true, KeysLowered]
      exact ⟨hk, hv, h3⟩
    · simp only [hkk, if_false, KeysLowered]
      exact ⟨h1, h2, ih h3⟩

mutual
/-- The loop of `buildCaseInsensitiveMap` keeps the keys lowered. -/
theorem buildCaseInsensitiveLoop_keysLowered (K : Lib) :
    ∀ (data acc : List (String × Dyn)), KeysLowered K acc →
      KeysLowered K (buildCaseInsensitiveLoop K data acc)
  | [], acc, h => by
    rw [buildCaseInsensitiveLoop]
    exact h
  | (key, val) :: rest, acc, h => by
    rw [buildCaseInsensitiveLoop_cons]
    exact buildCaseInsensitiveLoop_keysLowered K rest _
      (mapSet_keysLowered K acc _ _ h ⟨key, rfl⟩ (buildCaseInsensitiveVal_keysLowered K val))
/-- The value stored under a lower-cased key has its keys lowered. -/
theorem buildCaseInsensitiveVal_keysLowered (K : Lib) :
    ∀ v : Dyn, ValKeysLowered K (buildCaseInsensitiveVal K v)
  | Dyn.map m => by
    rw [buildCaseInsensitiveVal, ValKeysLowered]
    exact buildCaseInsensitiveLoop_keysLowered K m [] (by simp [KeysLowered])
  | Dyn.null => by simp [buildCaseInsensitiveVal, ValKeysLowered]
  | Dyn.bool _ => by simp [buildCaseInsensitiveVal, ValKeysLowered]
  | Dyn.int _ => by simp [buildCaseInsensitiveVal, ValKeysLowered]
  | Dyn.float _ => by simp [buildCaseInsensitiveVal, ValKeysLowered]
  | Dyn.str _ => by simp [buildCaseInsensitiveVal, ValKeysLowered]
  | Dyn.seq _ => by simp [buildCaseInsensitiveVal, ValKeysLowered]
  | Dyn.strs _ => by simp [buildCaseInsensitiveVal, ValKeysLowered]
end

/-- The assignment `m[k] = v` for a key the map does not hold adds the entry. -/
theorem mapSet_new {α : Type} (acc : List (String × α)) (k : String) (v : α)
    (h : k ∉ acc.map Prod.fst) : mapSet acc k v = acc ++ [(k, v)] := by
  induction acc with
  | nil => rfl
  | cons kv rest ih =>
    obtain ⟨k1, v1⟩ := kv
    simp only [List.map_cons, List.mem_cons, not_or] at h
    have hne : k1 ≠ k := fun hh => h.1 hh.symm
    simp [mapSet, hne, ih h.2]

/-- The loop of `buildCaseInsensitiveMap` when the lower-cased keys are pairwise
different and none is in the map built so far: each entry is added in turn. -/
theorem buildCaseInsensitiveLoop_nodup (K : Lib) (data : List (String × Dyn)) :
    ∀ acc : List (String × Dyn),
      (∀ kv ∈ data, K.ToLower kv.1 ∉ acc.map Prod.fst) →
      (data.map (fun kv => K.ToLower kv.1)).Nodup →
      buildCaseInsensitiveLoop K data acc =
        acc ++ data.map (fun kv => (K.ToLower kv.1, buildCaseInsensitiveVal K kv.2)) := by
  induction data with
  | nil =>
    intro acc _ _
    rw [buildCaseInsensitiveLoop]
    simp
  | cons kv rest ih =>
    intro acc hacc hnd
    obtain ⟨key, val⟩ := kv
    rw [buildCaseInsensitiveLoop_cons]
    simp only [List.map_cons, List.nodup_cons] at hnd
    have hk : K.ToLower key ∉ acc.map Prod.fst := hacc (key, val) (List.mem_cons_self _ _)
    rw [mapSet_new acc _ _ hk, ih _ ?_ hnd.2]
    · simp
    · intro kv hkv
      simp only [List.map_append, List.map_cons, List.map_nil, List.mem_append,
        List.mem_singleton, not_or]
      refine ⟨hacc kv (List.mem_cons_of_mem _ hkv), ?_⟩
      intro heq
      apply hnd.1
      rw [← heq]
      exact List.mem_map_of_mem (fun kv => K.ToLower kv.1) hkv

/-- C18. `buildCaseInsensitiveMap` returns a tree in which every key, at every depth
reached through mapping values only, is the lower-casing of a key; a value that is not a
mapping (a scalar, or a sequence, also one that holds mappings) is carried over as it is,
and a value that is a mapping is replaced by its normalization; and when no two keys of
`data` coincide after lower-casing, the result has one entry for each entry `(k, v)` of
`data`, namely `(lower k, normalized v)`, hence the same number of entries.  (The
function only reads `data`: the result is a new value.) -/
theorem buildCaseInsensitiveMap_spec (K : Lib) (data : List (String × Dyn)) :
    KeysLowered K (buildCaseInsensitiveMap K data) ∧
    (∀ v : Dyn, (∀ m, v ≠ Dyn.map m) → buildCaseInsensitiveVal K v = v) ∧
    (∀ m, buildCaseInsensitiveVal K (Dyn.map m) = Dyn.map (buildCaseInsensitiveMap K m)) ∧
    ((data.map (fun kv => K.ToLower kv.1)).Nodup →
      buildCaseInsensitiveMap K data =
        data.map (fun kv => (K.ToLower kv.1, buildCaseInsensitiveVal K kv.2)) ∧
      (buildCaseInsensitiveMap K data).length = data.length) := by
  refine ⟨?_, ?_, ?_, ?_⟩
  · exact buildCaseInsensitiveLoop_keysLowered K data [] (by simp [KeysLowered])
  · intro v hv
    cases v with
    | map m => exact absurd rfl (hv m)
    | _ => simp [buildCaseInsensitiveVal]
  · intro m
    rw [buildCaseInsensitiveVal]
    rfl
  · intro hnd
    have h := buildCaseInsensitiveLoop_nodup K data [] (by simp) hnd
    simp only [List.nil_append] at h
    refine ⟨h, ?_⟩
    unfold buildCaseInsensitiveMap
    rw [h, List.length_map]

/-- C18, at concrete inputs: a tree with a nested mapping and a sequence that holds a
mapping; the keys `Server` and `Host` are lower-cased, the key `Inner` inside the
sequence is not. -/
theorem buildCaseInsensitiveMap_spec_witness :
    buildCaseInsensitiveMap sampleLib
        [("Server", Dyn.map [("Host", Dyn.str "H")]),
          ("Items", Dyn.seq [Dyn.map [("Inner", Dyn.int 1)]])] =
      [("server", Dyn.map [("host", Dyn.str "H")]),
        ("items", Dyn.seq [Dyn.map [("Inner", Dyn.int 1)]])] ∧
    (buildCaseInsensitiveMap sampleLib
        [("Server", Dyn.map [("Host", Dyn.str "H")]),
          ("Items", Dyn.seq [Dyn.map [("Inner", Dyn.int 1)]])] =
      [("Server", Dyn.map [("Host", Dyn.str "H")]),
          ("Items", Dyn.seq [Dyn.map [("Inner", Dyn.int 1)]])].map
        (fun kv => (sampleLib.ToLower kv.1, buildCaseInsensitiveVal sampleLib kv.2)) ∧
      (buildCaseInsensitiveMap sampleLib
        [("Server", Dyn.map [("Host", Dyn.str "H")]),
          ("Items", Dyn.seq [Dyn.map [("Inner", Dyn.int 1)]])]).length =
        [("Server", Dyn.map [("Host", Dyn.str "H")]),
          ("Items", Dyn.seq [Dyn.map [("Inner", Dyn.int 1)]])].length) :=
  ⟨rfl, (buildCaseInsensitiveMap_spec sampleLib
    [("Server", Dyn.map [("Host", Dyn.str "H")]),
      ("Items", Dyn.seq [Dyn.map [("Inner", Dyn.int 1)]])]).2.2.2 (by decide)⟩

/-- `strings.Split` returns at least one piece. -/
theorem SplitChars_ne_nil (sep : Char) (s : List Char) : SplitChars s sep ≠ [] := by
  cases s with
  | nil => simp [SplitChars]
  | cons c cs =>
    unfold SplitChars
    by_cases h : c = sep
    · simp [h]
    · simp only [h, if_false]
      cases SplitChars cs sep <;> simp

/-- The pieces `strings.Split` returns, joined by the separator, give the text back. -/
theorem SplitChars_join (sep : Char) (s : List Char) :
    List.intercalate [sep] (SplitChars s sep) = s := by
  have h1 : ∀ p : List Char, List.intercalate [sep] [p] = p := by
    intro p
    simp [List.intercalate]
  have h2 : ∀ (p q : List Char) (qs : List (List Char)),
      List.intercalate [sep] (p :: q :: qs) = p ++ sep :: List.intercalate [sep] (q :: qs) := by
    intro p q qs
    simp [List.intercalate]
  induction s with
  | nil => simp [SplitChars, List.intercalate]
  | cons c cs ih =>
    unfold SplitChars
    by_cases h : c = sep
    · subst h
      simp only [if_true]
      cases hs : SplitChars cs c with
      | nil => exact absurd hs (SplitChars_ne_nil _ _)
      | cons p ps =>
        rw [hs] at ih
        rw [h2, ih]
        rfl
    · simp only [h, if_false]
      cases hs : SplitChars cs sep with
      | nil => exact absurd hs (SplitChars_ne_nil _ _)
      | cons p ps =>
        rw [hs] at ih
        cases ps with
        | nil =>
          rw [h1] at ih
          simp [h1, ih]
        | cons q qs =>
          rw [h2] at ih
          simp only [h2]
          rw [← ih]
          rfl

/-- `strings.Split` of a text without the separator: the text itself. -/
theorem SplitChars_none (sep : Char) (a : List Char) (h : sep ∉ a) :
    SplitChars a sep = [a] := by
  induction a with
  | nil => rfl
  | cons c cs ih =>
    have hc : c ≠ sep := fun hh => h (hh ▸ List.mem_cons_self _ _)
    have hcs : sep ∉ cs := fun hh => h (List.mem_cons_of_mem _ hh)
    simp [SplitChars, hc, ih hcs]

/-- `strings.Split` cuts at the first separator. -/
theorem SplitChars_append (sep : Char) (a b : List Char) (h : sep ∉ a) :
    SplitChars (a ++ sep :: b) sep = a :: SplitChars b sep := by
  induction a with
  | nil => simp [SplitChars]
  | cons c cs ih =>
    have hc : c ≠ sep := fun hh => h (hh ▸ List.mem_cons_self _ _)
    have hcs : sep ∉ cs := fun hh => h (List.mem_cons_of_mem _ hh)
    simp [SplitChars, hc, ih hcs]

/-- The digits `parseDigits` accepts are the characters `0` to `9`. -/
theorem parseDigits_chars (l : List Char) :
    ∀ (acc r : Nat), parseDigits l acc = some r → ∀ ch ∈ l, 48 ≤ ch.toNat ∧ ch.toNat ≤ 57 := by
  induction l with
  | nil =>
    intro acc r _ ch hch
    simp at hch
  | cons c cs ih =>
    intro acc r h ch hch
    unfold parseDigits at h
    by_cases hc : 48 ≤ c.toNat ∧ c.toNat ≤ 57
    · simp only [hc, and_self, if_true] at h
      rcases List.mem_cons.1 hch with rfl | hmem
      · exact hc
      · exact ih _ _ h ch hmem
    · simp [hc] at h

/-- A text `strconv.ParseInt` accepts holds no colon. -/
theorem ParseInt_no_colon (s : String) (n : Int) (h : ParseInt s = some n) :
    ':' ∉ s.data := by
  have hdig : ∀ (l : List Char) (r : Nat), parseUnsigned l = some r → ':' ∉ l := by
    intro l r hl hmem
    cases l with
    | nil => simp at hmem
    | cons c cs =>
      have := parseDigits_chars (c :: cs) 0 r hl ':' hmem
      have h58 : (':' : Char).toNat = 58 := rfl
      omega
  unfold ParseInt at h
  intro hmem
  split at h
  · rename_i ds hd
    cases hp : parseUnsigned ds with
    | none => simp [hp] at h
    | some r =>
      rw [hd] at hmem
      rcases List.mem_cons.1 hmem with hc | hc
      · exact absurd hc (by decide)
      · exact hdig ds r hp hc
  · rename_i ds hd
    cases hp : parseUnsigned ds with
    | none => simp [hp] at h
    | some r =>
      rw [hd] at hmem
      rcases List.mem_cons.1 hmem with hc | hc
      · exact absurd hc (by decide)
      · exact hdig ds r hp hc
  · cases hp : parseUnsigned s.data with
    | none => simp [hp] at h
    | some r => exact hdig s.data r hp hmem

/-- `strings.HasPrefix` with a text of one character. -/
theorem HasPrefix_single (v p : String) (c : Char) (hp : p.data = [c]) :
    HasPrefix v p = true ↔ v.data.head? = some c := by
  unfold HasPrefix
  rw [hp]
  cases v.data with
  | nil => simp [List.isPrefixOf]
  | cons x t =>
    simp only [List.isPrefixOf, Bool.and_true, beq_iff_eq, List.head?_cons, Option.some.injEq]
    exact eq_comm

/-- `strings.HasSuffix` with a text of one character. -/
theorem HasSuffix_single (v p : String) (c : Char) (hp : p.data = [c]) :
    HasSuffix v p = true ↔ v.data.getLast? = some c := by
  unfold HasSuffix
  rw [hp, ← List.head?_reverse]
  cases v.data.reverse with
  | nil => simp [List.isPrefixOf]
  | cons x t =>
    simp only [List.reverse_cons, List.reverse_nil, List.nil_append, List.isPrefixOf,
      Bool.and_true, beq_iff_eq, List.head?_cons, Option.some.injEq]
    exact eq_comm

/-- A text that starts with `o` and ends with a different character `c`: what
`TrimPrefix (TrimSuffix v c) o` cuts out, and the text as the three parts. -/
theorem trim_delims (v os cs : String) (o c : Char) (ho : os.data = [o]) (hc : cs.data = [c])
    (hne : o ≠ c) (h1 : v.data.head? = some o) (h2 : v.data.getLast? = some c) :
    TrimPrefix (TrimSuffix v cs) os = String.mk (v.data.drop 1).dropLast ∧
    v.data = o :: ((v.data.drop 1).dropLast ++ [c]) := by
  have hs : HasSuffix v cs = true := (HasSuffix_single v cs c hc).2 h2
  have hts : TrimSuffix v cs = String.mk v.data.dropLast := by
    simp [TrimSuffix, hs, hc, List.dropLast_eq_take]
  obtain ⟨d⟩ := v
  cases d with
  | nil => simp at h1
  | cons x t =>
    simp only [List.head?_cons, Option.some.injEq] at h1
    subst h1
    cases t with
    | nil =>
      simp only [List.getLast?_singleton, Option.some.injEq] at h2
      exact absurd h2 hne
    | cons c2 t2 =>
      have hp : HasPrefix (String.mk (x :: (c2 :: t2).dropLast)) os = true :=
        (HasPrefix_single _ os x ho).2 rfl
      have hlast : (c2 :: t2).getLast? = some c := by
        simpa [List.getLast?_cons_cons] using h2
      have hsplit : c2 :: t2 = (c2 :: t2).dropLast ++ [c] := by
        have hne2 : c2 :: t2 ≠ [] := by simp
        have := List.dropLast_append_getLast hne2
        rw [List.getLast?_eq_getLast _ hne2, Option.some.injEq] at hlast
        rw [hlast] at this
        exact this.symm
      refine ⟨?_, ?_⟩
      · rw [hts]
        simp only [List.dropLast_cons₂] at hp ⊢
        simp [TrimPrefix, hp, ho]
      · simp only [List.drop_succ_cons, List.drop_zero]
        rw [← hsplit]

/-- `parseRange` on a bracketed pair of texts that hold no colon. -/
theorem parseRange_bracket (A B : String) (hA : ':' ∉ A.data) (hB : ':' ∉ B.data) :
    parseRange ("[" ++ A ++ ":" ++ B ++ "]") =
      (ParseInt A).bind (fun a => (ParseInt B).bind
        (fun b => if a > b then none else some (a, b))) := by
  have hdata : ("[" ++ A ++ ":" ++ B ++ "]").data =
      ('[' :: (A.data ++ ':' :: B.data)) ++ [']'] := by
    simp [String.data_append]
  have h1 : ("[" ++ A ++ ":" ++ B ++ "]").data.head? = some '[' := by rw [hdata]; rfl
  have h2 : ("[" ++ A ++ ":" ++ B ++ "]").data.getLast? = some ']' := by
    rw [hdata, List.getLast?_concat]
  have hp : HasPrefix ("[" ++ A ++ ":" ++ B ++ "]") "[" = true :=
    (HasPrefix_single _ "[" '[' rfl).2 h1
  have hs : HasSuffix ("[" ++ A ++ ":" ++ B ++ "]") "]" = true :=
    (HasSuffix_single _ "]" ']' rfl).2 h2
  have htrim := (trim_delims ("[" ++ A ++ ":" ++ B ++ "]") "[" "]" '[' ']' rfl rfl (by decide)
    h1 h2).1
  have hinner : (("[" ++ A ++ ":" ++ B ++ "]").data.drop 1).dropLast = A.data ++ ':' :: B.data := by
    rw [hdata]
    simp only [List.cons_append, List.drop_succ_cons, List.drop_zero]
    exact List.dropLast_concat
  have hsplit : Split (String.mk (A.data ++ ':' :: B.data)) ':' = [A, B] := by
    simp only [Split, SplitChars_append ':' A.data B.data hA, SplitChars_none ':' B.data hB,
      List.map_cons, List.map_nil]
  unfold parseRange
  rw [htrim, hinner, hsplit]
  simp only [hp, hs, Bool.not_true, Bool.or_self, Bool.false_eq_true, if_false]
  cases ParseInt A with
  | none => rfl
  | some a =>
    cases ParseInt B with
    | none => rfl
    | some b => rfl

/-- A text `parseRange` accepts is a bracketed pair of texts that `strconv.ParseInt`
accepts, the first number not above the second; and every such text is accepted. -/
theorem parseRange_iff (body : String) (a b : Int) :
    parseRange body = some (a, b) ↔
      ∃ A B : String, body = "[" ++ A ++ ":" ++ B ++ "]" ∧ ParseInt A = some a ∧
        ParseInt B = some b ∧ a ≤ b := by
  constructor
  · intro h
    unfold parseRange at h
    by_cases hp : HasPrefix body "[" = true
    · by_cases hs : HasSuffix body "]" = true
      · have h1 := (HasPrefix_single body "[" '[' rfl).1 hp
        have h2 := (HasSuffix_single body "]" ']' rfl).1 hs
        obtain ⟨htrim, hbody⟩ := trim_delims body "[" "]" '[' ']' rfl rfl (by decide) h1 h2
        rw [htrim] at h
        simp only [hp, hs, Bool.not_true, Bool.or_self, Bool.false_eq_true, if_false] at h
        split at h
        · rename_i lo hi hsplit
          cases hlo : ParseInt lo with
          | none => simp [hlo] at h
          | some x =>
            cases hhi : ParseInt hi with
            | none => simp [hlo, hhi] at h
            | some y =>
              simp only [hlo, hhi] at h
              by_cases hxy : x > y
              · simp [hxy] at h
              · simp only [hxy, if_false, Option.some.injEq, Prod.mk.injEq] at h
                obtain ⟨rfl, rfl⟩ := h
                refine ⟨lo, hi, ?_, hlo, hhi, by omega⟩
                have hjoin := SplitChars_join ':' (body.data.drop 1).dropLast
                simp only [Split] at hsplit
                have hsc : SplitChars (body.data.drop 1).dropLast ':' = [lo.data, hi.data] := by
                  have := congrArg (List.map String.data) hsplit
                  simpa [List.map_map, Function.comp_def] using this
                rw [hsc] at hjoin
                have hinner : (body.data.drop 1).dropLast = lo.data ++ ':' :: hi.data := by
                  rw [← hjoin]
                  simp [List.intercalate]
                apply String.ext
                rw [hbody, hinner]
                simp [String.data_append]
        · simp at h
      · simp [hs] at h
    · simp [hp] at h
  · rintro ⟨A, B, rfl, hA, hB, hab⟩
    rw [parseRange_bracket A B (ParseInt_no_colon A a hA) (ParseInt_no_colon B b hB), hA, hB]
    have : ¬ a > b := by omega
    simp [this]

/-- The pass of the loop of `parseTag` for a segment that, trimmed, is `range=` followed
by `body`: what `parseRange` makes of `body` decides. -/
theorem parseTagPart_range (K : Lib) (opts : tagOptions) (part body : String)
    (h : TrimSpace part = "range=" ++ body) :
    (∀ a b, parseRange body = some (a, b) →
      parseTagPart K opts part = { opts with hasRange := true, rangeMin := a, rangeMax := b }) ∧
    (parseRange body = none → parseTagPart K opts part = opts) := by
  have hdata : ("range=" ++ body).data = 'r' :: 'a' :: 'n' :: 'g' :: 'e' :: '=' :: body.data := by
    simp [String.data_append]
  have hne : ("range=" ++ body) ≠ "" := by
    intro hh
    have := congrArg String.data hh
    rw [hdata] at this
    simp at this
  have hd : HasPrefix ("range=" ++ body) "default=" = false := by
    have : ("default=" : String).data = ['d', 'e', 'f', 'a', 'u', 'l', 't', '='] := rfl
    simp [HasPrefix, hdata, this, List.isPrefixOf]
  have hr : HasPrefix ("range=" ++ body) "range=" = true := by
    have : ("range=" : String).data = ['r', 'a', 'n', 'g', 'e', '='] := rfl
    simp [HasPrefix, hdata, this, List.isPrefixOf]
  have hs : sliceFrom ("range=" ++ body) 6 = body := by
    simp [sliceFrom, hdata]
  constructor
  · intro a b hab
    simp [parseTagPart, h, hne, hd, hr, hs, hab]
  · intro hnone
    simp [parseTagPart, h, hne, hd, hr, hs, hnone]

/-- The pass of the loop of `parseTag` for a segment that, trimmed, does not start with
`range=` leaves the recorded range as it is. -/
theorem parseTagPart_keeps_range (K : Lib) (opts : tagOptions) (q : String)
    (h : HasPrefix (TrimSpace q) "range=" = false) :
    (parseTagPart K opts q).hasRange = opts.hasRange ∧
    (parseTagPart K opts q).rangeMin = opts.rangeMin ∧
    (parseTagPart K opts q).rangeMax = opts.rangeMax := by
  unfold parseTagPart
  simp only [h]
  split
  · exact ⟨rfl, rfl, rfl⟩
  · split
    · exact ⟨rfl, rfl, rfl⟩
    · split
      · rename_i hc
        simp at hc
      · split
        · exact ⟨rfl, rfl, rfl⟩
        · split <;> exact ⟨rfl, rfl, rfl⟩

/-- Segments that do not start with `range=` leave the recorded range as it is. -/
theorem foldl_keeps_range (K : Lib) (post : List String)
    (h : ∀ q ∈ post, HasPrefix (TrimSpace q) "range=" = false) (opts : tagOptions) :
    (post.foldl (parseTagPart K) opts).hasRange = opts.hasRange ∧
    (post.foldl (parseTagPart K) opts).rangeMin = opts.rangeMin ∧
    (post.foldl (parseTagPart K) opts).rangeMax = opts.rangeMax := by
  induction post generalizing opts with
  | nil => exact ⟨rfl, rfl, rfl⟩
  | cons q rest ih =>
    have hq := parseTagPart_keeps_range K opts q (h q (List.mem_cons_self _ _))
    have hrest := ih (fun x hx => h x (List.mem_cons_of_mem _ hx)) (parseTagPart K opts q)
    simp only [List.foldl_cons]
    exact ⟨hrest.1.trans hq.1, hrest.2.1.trans hq.2.1, hrest.2.2.trans hq.2.2⟩

/-- One pass of the loop of `parseTag` treats the components other than the range without
regard to the range recorded so far. -/
theorem parseTagPart_withoutRange (K : Lib) (o1 o2 : tagOptions) (q : String)
    (h : o1.withoutRange = o2.withoutRange) :
    (parseTagPart K o1 q).withoutRange = (parseTagPart K o2 q).withoutRange := by
  simp only [tagOptions.withoutRange, Prod.mk.injEq] at h
  obtain ⟨h1, h2, h3, h4, h5⟩ := h
  unfold parseTagPart
  simp only []
  split
  · simp [tagOptions.withoutRange, h1, h2, h3, h4, h5]
  · split
    · simp [tagOptions.withoutRange, h3, h4, h5]
    · split
      · split <;> simp [tagOptions.withoutRange, h1, h2, h3, h4, h5]
      · split
        · simp [tagOptions.withoutRange, h1, h2, h5]
        · split <;> simp [tagOptions.withoutRange, h1, h2, h3, h4, h5]

/-- The loop of `parseTag` treats the components other than the range without regard to
the range recorded so far. -/
theorem foldl_withoutRange (K : Lib) (post : List String) (o1 o2 : tagOptions)
    (h : o1.withoutRange = o2.withoutRange) :
    (post.foldl (parseTagPart K) o1).withoutRange =
      (post.foldl (parseTagPart K) o2).withoutRange := by
  induction post generalizing o1 o2 with
  | nil => exact h
  | cons q rest ih =>
    simp only [List.foldl_cons]
    exact ih _ _ (parseTagPart_withoutRange K o1 o2 q h)

/-- C14. Take an annotation with exactly one `range=` segment after the name: trimmed, it
is `range=` followed by `body`, and no other segment starts with `range=`.  `parseTag`
records a range with bounds `(a, b)` exactly when `body` is a bracketed pair `[A:B]`
where `strconv.ParseInt` (base 10, 64 bits) reads `A` as `a` and `B` as `b` and
`a ≤ b`; in every other case no range is recorded; and in both cases every other
component of the descriptor is what `parseTag` gives for the annotation `tag0` that has
the same segments without the `range=` one. -/
theorem parseTag_range_iff (K : Lib) (tag tag0 part body : String) (pre post : List String)
    (hsplit : (Split tag ',').tail = pre ++ part :: post)
    (hsplit0 : (Split tag0 ',').tail = pre ++ post)
    (hpart : TrimSpace part = "range=" ++ body)
    (hpre : ∀ q ∈ pre, HasPrefix (TrimSpace q) "range=" = false)
    (hpost : ∀ q ∈ post, HasPrefix (TrimSpace q) "range=" = false) :
    (∀ a b, ((parseTag K tag).2.hasRange = true ∧ (parseTag K tag).2.rangeMin = a ∧
        (parseTag K tag).2.rangeMax = b) ↔
      ∃ A B : String, body = "[" ++ A ++ ":" ++ B ++ "]" ∧ ParseInt A = some a ∧
        ParseInt B = some b ∧ a ≤ b) ∧
    ((¬ ∃ (A B : String) (a b : Int), body = "[" ++ A ++ ":" ++ B ++ "]" ∧
        ParseInt A = some a ∧ ParseInt B = some b ∧ a ≤ b) →
      (parseTag K tag).2.hasRange = false) ∧
    (parseTag K tag).2.withoutRange = (parseTag K tag0).2.withoutRange := by
  have hpre0 := foldl_keeps_range K pre hpre {}
  have hfold : (parseTag K tag).2 =
      post.foldl (parseTagPart K) (parseTagPart K (pre.foldl (parseTagPart K) {}) part) := by
    rw [parseTag_snd, hsplit, List.foldl_append, List.foldl_cons]
  have hpost0 := foldl_keeps_range K post hpost
    (parseTagPart K (pre.foldl (parseTagPart K) {}) part)
  have hpt := parseTagPart_range K (pre.foldl (parseTagPart K) {}) part body hpart
  have hkey : ∀ a b, ((parseTag K tag).2.hasRange = true ∧ (parseTag K tag).2.rangeMin = a ∧
      (parseTag K tag).2.rangeMax = b) ↔ parseRange body = some (a, b) := by
    intro a b
    rw [hfold, hpost0.1, hpost0.2.1, hpost0.2.2]
    cases hr : parseRange body with
    | none =>
      rw [hpt.2 hr, hpre0.1]
      simp
    | some ab =>
      obtain ⟨x, y⟩ := ab
      rw [hpt.1 x y hr]
      simp
  refine ⟨?_, ?_, ?_⟩
  · intro a b
    rw [hkey a b]
    exact parseRange_iff body a b
  · intro hno
    cases hh : (parseTag K tag).2.hasRange with
    | false => rfl
    | true =>
      exfalso
      apply hno
      obtain ⟨A, B, h1, h2, h3, h4⟩ := (parseRange_iff body _ _).1
        ((hkey (parseTag K tag).2.rangeMin (parseTag K tag).2.rangeMax).1 ⟨hh, rfl, rfl⟩)
      exact ⟨A, B, _, _, h1, h2, h3, h4⟩
  · rw [hfold, parseTag_snd K tag0, hsplit0, List.foldl_append]
    apply foldl_withoutRange
    cases hr : parseRange body with
    | none => rw [hpt.2 hr]
    | some ab =>
      obtain ⟨x, y⟩ := ab
      rw [hpt.1 x y hr]
      rfl

/-- C14, at concrete inputs: in `port,default=5, range=[1:10] ,optional` the range
`(1, 10)` is recorded; in `port,default=5,range=[10:1],optional` none is; the other
components are those of `port,default=5,optional`. -/
theorem parseTag_range_iff_witness :
    ((∀ a b, ((parseTag sampleLib "port,default=5, range=[1:10] ,optional").2.hasRange = true ∧
          (parseTag sampleLib "port,default=5, range=[1:10] ,optional").2.rangeMin = a ∧
          (parseTag sampleLib "port,default=5, range=[1:10] ,optional").2.rangeMax = b) ↔
        ∃ A B : String, "[1:10]" = "[" ++ A ++ ":" ++ B ++ "]" ∧ ParseInt A = some a ∧
          ParseInt B = some b ∧ a ≤ b) ∧
      ((¬ ∃ (A B : String) (a b : Int), "[1:10]" = "[" ++ A ++ ":" ++ B ++ "]" ∧
          ParseInt A = some a ∧ ParseInt B = some b ∧ a ≤ b) →
        (parseTag sampleLib "port,default=5, range=[1:10] ,optional").2.hasRange = false) ∧
      (parseTag sampleLib "port,default=5, range=[1:10] ,optional").2.withoutRange =
        (parseTag sampleLib "port,default=5,optional").2.withoutRange) ∧
    (parseTag sampleLib "port,default=5, range=[1:10] ,optional").2.hasRange = true ∧
    (parseTag sampleLib "port,default=5, range=[1:10] ,optional").2.rangeMin = 1 ∧
    (parseTag sampleLib "port,default=5, range=[1:10] ,optional").2.rangeMax = 10 ∧
    (parseTag sampleLib "port,default=5,range=[10:1],optional").2.hasRange = false :=
  ⟨parseTag_range_iff sampleLib "port,default=5, range=[1:10] ,optional"
      "port,default=5,optional" " range=[1:10] " "[1:10]" ["default=5"] ["optional"]
      rfl rfl rfl (by decide) (by decide), rfl, rfl, rfl, rfl⟩

/-- The keys of a map after the assignment `m[k1] = v`. -/
theorem mapSet_keys {α : Type} (acc : List (String × α)) (k1 : String) (v : α) (k : String) :
    k ∈ (mapSet acc k1 v).map Prod.fst ↔ k ∈ acc.map Prod.fst ∨ k = k1 := by
  induction acc with
  | nil => simp [mapSet]
  | cons kv rest ih =>
    obtain ⟨k2, v2⟩ := kv
    simp only [mapSet]
    by_cases h : k2 = k1
    · subst h
      simp only [if_true, List.map_cons, List.mem_cons]
      tauto
    · simp only [h, if_false, List.map_cons, List.mem_cons, ih]
      tauto

/-- The keys the loop of `buildCaseInsensitiveMap` leaves: those of the map built so
far and the lower-casings of the keys of `data`. -/
theorem buildCaseInsensitiveLoop_keys (K : Lib) (data : List (String × Dyn)) :
    ∀ (acc : List (String × Dyn)) (k : String),
      k ∈ (buildCaseInsensitiveLoop K data acc).map Prod.fst ↔
        k ∈ acc.map Prod.fst ∨ ∃ k0 ∈ data.map Prod.fst, k = K.ToLower k0 := by
  induction data with
  | nil =>
    intro acc k
    rw [buildCaseInsensitiveLoop]
    simp
  | cons kv rest ih =>
    intro acc k
    obtain ⟨key, val⟩ := kv
    rw [buildCaseInsensitiveLoop_cons, ih, mapSet_keys]
    simp only [List.map_cons, List.mem_cons, exists_eq_or_imp]
    tauto

/-- The loop of `resolveEnvVars` over a map keeps the keys. -/
theorem resolveEnvVarsMap_keys (env : Env) (fuel : Nat) (c : Config)
    (m : List (String × Dyn)) :
    ∀ r, resolveEnvVarsMap env fuel c m = some r → r.map Prod.fst = m.map Prod.fst := by
  induction m with
  | nil =>
    intro r h
    rw [resolveEnvVarsMap] at h
    simp only [Option.some.injEq] at h
    subst h
    rfl
  | cons kv rest ih =>
    intro r h
    obtain ⟨k, item⟩ := kv
    rw [resolveEnvVarsMap] at h
    cases hi : resolveEnvVars env fuel c item with
    | none => simp [hi] at h
    | some x =>
      cases hr : resolveEnvVarsMap env fuel c rest with
      | none => simp [hi, hr] at h
      | some rs =>
        simp only [hi, hr, Option.map_some', Option.some.injEq] at h
        subst h
        simp [ih rs hr]

/-- The keys the loop of `setField` over the source map leaves in the target map when it
ends without error: those it held and those of the source. -/
theorem setEntries_keys (set : Dyn → Res Val) (m : List (String × Dyn)) :
    ∀ (acc kvs : List (String × Val)), setEntries set m acc = some (kvs, none) →
      ∀ k, k ∈ kvs.map Prod.fst ↔ k ∈ acc.map Prod.fst ∨ k ∈ m.map Prod.fst := by
  induction m with
  | nil =>
    intro acc kvs h k
    simp only [setEntries, Option.some.injEq, Prod.mk.injEq, and_true] at h
    subst h
    simp
  | cons kv rest ih =>
    intro acc kvs h k
    obtain ⟨k1, v1⟩ := kv
    simp only [setEntries] at h
    split at h
    · simp at h
    · simp at h
    · rw [ih _ _ h k, mapSet_keys]
      simp only [List.map_cons, List.mem_cons]
      tauto

/-- `setField` on a map field given a mapping copies the keys of that mapping. -/
theorem setField_map_keys (K : Lib) (env : Env) (fuel : Nat) (c : Config) (elem : Ty)
    (cur : Val) (m : List (String × Dyn)) (opts : tagOptions) (v : Val)
    (hmap : K.ToStringMapE (Dyn.map m) = some m)
    (h : setField K env fuel c (Ty.map elem) cur (Dyn.map m) opts = some (v, none)) :
    ∃ kvs, v = Val.map (some kvs) ∧ ∀ k, k ∈ kvs.map Prod.fst ↔ k ∈ m.map Prod.fst := by
  rw [setField] at h
  simp only [Dyn.isNil, Bool.false_eq_true, if_false, hmap] at h
  cases hs : setEntries (fun v => setField K env fuel c elem (zero elem) v {}) m [] with
  | none => simp [hs, Res.mapVal] at h
  | some r =>
    obtain ⟨kvs, oe⟩ := r
    simp only [hs, Res.mapVal, Option.some.injEq, Prod.mk.injEq] at h
    obtain ⟨hv, he⟩ := h
    subst he
    refine ⟨kvs, hv.symm, ?_⟩
    intro k
    rw [setEntries_keys _ m [] kvs hs k]
    simp

/-- The pass of the loop of `parseStruct` for a leaf field ends without error only if
`parseField` did. -/
theorem parseStructField_leaf_inv (K : Lib) (env : Env) (fuel : Nat) (c : Config)
    (name : String) (tag : List (String × String)) (anonymous : Bool) (ty : Ty) (cur v : Val)
    (curMap : List (String × Dyn))
    (hdash : tagGet tag c.options.TagName ≠ "-")
    (hleaf : ty.isStructOrPtrToStruct = false)
    (h : parseStructField K env fuel c (StructField.mk name tag anonymous true ty) cur curMap =
      some (v, none)) :
    parseField K env fuel c (fun v o => setField K env fuel c ty cur v o) cur
      (if (parseTag K (tagGet tag c.options.TagName)).1 = "" then name
        else (parseTag K (tagGet tag c.options.TagName)).1)
      (parseTag K (tagGet tag c.options.TagName)).2 curMap = some (v, none) := by
  rw [parseStructField] at h
  simp only [hdash, Bool.not_true, Bool.false_eq_true, if_false] at h
  cases hp : parseField K env fuel c (fun v o => setField K env fuel c ty cur v o) cur
      (if (parseTag K (tagGet tag c.options.TagName)).1 = "" then name
        else (parseTag K (tagGet tag c.options.TagName)).1)
      (parseTag K (tagGet tag c.options.TagName)).2 curMap with
  | none =>
    cases ty with
    | struct sub => simp [Ty.isStructOrPtrToStruct] at hleaf
    | ptr elem =>
      cases elem with
      | struct sub => simp [Ty.isStructOrPtrToStruct] at hleaf
      | _ => simp [hp] at h
    | _ => simp [hp] at h
  | some r =>
    obtain ⟨w, oe⟩ := r
    cases oe with
    | some e =>
      cases ty with
      | struct sub => simp [Ty.isStructOrPtrToStruct] at hleaf
      | ptr elem =>
        cases elem with
        | struct sub => simp [Ty.isStructOrPtrToStruct] at hleaf
        | _ => simp [hp] at h
      | _ => simp [hp] at h
    | none =>
      cases ty with
      | struct sub => simp [Ty.isStructOrPtrToStruct] at hleaf
      | ptr elem =>
        cases elem with
        | struct sub => simp [Ty.isStructOrPtrToStruct] at hleaf
        | _ => simp [hp] at h; simp [h]
      | _ => simp [hp] at h; simp [h]

/-- C11 (evaluation at the failing input). Through `Load` with case-insensitive matching
on (the options of `New`), the source `labels:` mapping with the single key `Env` bound
into a map field yields a map whose only key is `env`: `buildCaseInsensitiveMap` has
lower-cased the keys of the nested mapping before `setField` copies them.  On the sibling
paths the key stays `Env`: through `Load` with `WithIgnoreCase(false)`, through `Parse`
on the tree as loaded, and through `Load` with the default options when the structure
that holds the map field is an item of a sequence, which the normalization does not
enter. -/
theorem Load_map_field_key_lowered :
    Load sampleLib noEnv 1 [("labels", Dyn.map [("Env", Dyn.str "prod")])]
        (Target.ptr (Ty.struct [StructField.mk "Labels" [("meta", "labels")] false true
          (Ty.map Ty.string)]) (Val.struct [Val.map none])) [] =
      some (Target.ptr (Ty.struct [StructField.mk "Labels" [("meta", "labels")] false true
          (Ty.map Ty.string)]) (Val.struct [Val.map (some [("env", Val.str "prod")])]), none) ∧
    Load sampleLib noEnv 1 [("labels", Dyn.map [("Env", Dyn.str "prod")])]
        (Target.ptr (Ty.struct [StructField.mk "Labels" [("meta", "labels")] false true
          (Ty.map Ty.string)]) (Val.struct [Val.map none])) [WithIgnoreCase false] =
      some (Target.ptr (Ty.struct [StructField.mk "Labels" [("meta", "labels")] false true
          (Ty.map Ty.string)]) (Val.struct [Val.map (some [("Env", Val.str "prod")])]), none) ∧
    Parse sampleLib noEnv 1 (LoadData (New []) [("labels", Dyn.map [("Env", Dyn.str "prod")])])
        (Target.ptr (Ty.struct [StructField.mk "Labels" [("meta", "labels")] false true
          (Ty.map Ty.string)]) (Val.struct [Val.map none])) =
      some (Target.ptr (Ty.struct [StructField.mk "Labels" [("meta", "labels")] false true
          (Ty.map Ty.string)]) (Val.struct [Val.map (some [("Env", Val.str "prod")])]), none) ∧
    Load sampleLib noEnv 1
        [("items", Dyn.seq [Dyn.map [("labels", Dyn.map [("Env", Dyn.str "prod")])]])]
        (Target.ptr (Ty.struct [StructField.mk "Items" [("meta", "items")] false true
          (Ty.slice (Ty.struct [StructField.mk "Labels" [("meta", "labels")] false true
            (Ty.map Ty.string)]))]) (Val.struct [Val.slice none])) [] =
      some (Target.ptr (Ty.struct [StructField.mk "Items" [("meta", "items")] false true
          (Ty.slice (Ty.struct [StructField.mk "Labels" [("meta", "labels")] false true
            (Ty.map Ty.string)]))])
        (Val.struct [Val.slice (some [Val.struct [Val.map (some [("Env", Val.str "prod")])]])]),
        none) :=
  ⟨rfl, rfl, rfl, rfl⟩

/-- The keys a map field gets from a normalized scope.  With case-insensitive matching on
and the scope normalized by `buildCaseInsensitiveMap`: when the pass of `parseStruct` for
a map field finds under the field's key the normalization of the mapping `src` and ends
without error, the field holds a map whose keys are exactly the lower-cased keys of
`src`.  (`setField` copies the keys of the mapping it is given, and that mapping is the
normalized one.) -/
theorem parseStructField_map_keys_lowered (K : Lib) (env : Env) (fuel : Nat) (c : Config)
    (name : String) (tag : List (String × String)) (anonymous : Bool) (elem : Ty) (cur v : Val)
    (tree src : List (String × Dyn))
    (hic : c.options.IgnoreCase = true)
    (hcast : ∀ m, K.ToStringMapE (Dyn.map m) = some m)
    (hdash : tagGet tag c.options.TagName ≠ "-")
    (hsrc : (buildCaseInsensitiveMap K tree).lookup
      (K.ToLower (if (parseTag K (tagGet tag c.options.TagName)).1 = "" then name
        else (parseTag K (tagGet tag c.options.TagName)).1)) =
        some (buildCaseInsensitiveVal K (Dyn.map src)))
    (h : parseStructField K env fuel c (StructField.mk name tag anonymous true (Ty.map elem))
      cur (buildCaseInsensitiveMap K tree) = some (v, none)) :
    ∃ kvs, v = Val.map (some kvs) ∧
      ∀ k, k ∈ kvs.map Prod.fst ↔ ∃ k0 ∈ src.map Prod.fst, k = K.ToLower k0 := by
  have hp := parseStructField_leaf_inv K env fuel c name tag anonymous (Ty.map elem) cur v
    (buildCaseInsensitiveMap K tree) hdash rfl h
  have hval : buildCaseInsensitiveVal K (Dyn.map src) =
      Dyn.map (buildCaseInsensitiveLoop K src []) := by
    rw [buildCaseInsensitiveVal]
  have hkeys : ∀ k, k ∈ (buildCaseInsensitiveLoop K src []).map Prod.fst ↔
      ∃ k0 ∈ src.map Prod.fst, k = K.ToLower k0 := by
    intro k
    rw [buildCaseInsensitiveLoop_keys]
    simp
  rw [hval] at hsrc
  simp only [parseField, getValueFromMap, hic, if_true, hsrc] at hp
  cases hu : c.options.UseEnv with
  | false =>
    simp only [hu, Bool.false_eq_true, if_false] at hp
    obtain ⟨kvs, hv, hk⟩ := setField_map_keys K env fuel c elem cur _ _ v (hcast _) hp
    exact ⟨kvs, hv, fun k => (hk k).trans (hkeys k)⟩
  | true =>
    simp only [hu, if_true] at hp
    have hres : resolveEnvVars env fuel c (Dyn.map (buildCaseInsensitiveLoop K src [])) =
        (resolveEnvVarsMap env fuel c (buildCaseInsensitiveLoop K src [])).map Dyn.map := by
      rw [resolveEnvVars]
      simp [hu]
    rw [hres] at hp
    cases hr : resolveEnvVarsMap env fuel c (buildCaseInsensitiveLoop K src []) with
    | none => simp [hr] at hp
    | some r =>
      simp only [hr, Option.map_some'] at hp
      obtain ⟨kvs, hv, hk⟩ := setField_map_keys K env fuel c elem cur r _ v (hcast r) hp
      refine ⟨kvs, hv, fun k => (hk k).trans ?_⟩
      rw [resolveEnvVarsMap_keys env fuel c _ r hr]
      exact hkeys k

/-- The keys a map field gets from a normalized scope, at concrete inputs: the mapping
under `Labels` with the keys `Env` and `Tier`, normalized; the map field holds the keys
`env` and `tier`. -/
theorem parseStructField_map_keys_lowered_witness :
    ∃ kvs, Val.map (some [("env", Val.str "prod"), ("tier", Val.str "1")]) =
        Val.map (some kvs) ∧
      ∀ k, k ∈ kvs.map Prod.fst ↔
        ∃ k0 ∈ [("Env", Dyn.str "prod"), ("Tier", Dyn.str "1")].map Prod.fst,
          k = sampleLib.ToLower k0 :=
  parseStructField_map_keys_lowered sampleLib noEnv 1 (New []) "Labels" [("meta", "labels")]
    false Ty.string (Val.map none) (Val.map (some [("env", Val.str "prod"), ("tier", Val.str "1")]))
    [("Labels", Dyn.map [("Env", Dyn.str "prod"), ("Tier", Dyn.str "1")])]
    [("Env", Dyn.str "prod"), ("Tier", Dyn.str "1")]
    rfl (fun _ => rfl) (by decide) rfl rfl

end Metacfg
